import Mathlib

/-!
Verification development for the pyaprilaire thermostat client.

The definitions below are a shallow embedding of the Python source:

* `pyaprilaire/packet.py` — the binary packet codec (`Packet.parse`,
  `Packet.serialize`, the `MAPPING` attribute schema, the temperature /
  humidity codecs, and the CRC-8 checksum), and
* `pyaprilaire/client.py` — the protocol session dispatch
  (`_AprilaireClientProtocol.data_received`, `_queue_loop`) and the
  request/response correlation (`AprilaireClient.data_received`,
  `wait_for_response`).

Conventions of the embedding:

* Python `bytes` buffers are `List Nat`; an out-of-range index access
  (Python `IndexError`) is modelled by `Except Unit` / `Option` failure.
* Python `dict` field payloads are insertion-ordered association lists
  `List (String × PyValue)`; a heterogeneous dict value is `PyValue`
  (Python `None` is `PyValue.pyNone`).
* Python floats in the temperature codec are modelled as `ℚ`; all values
  involved are multiples of 1/2, on which float arithmetic is exact.
* The two scanning loops of `Packet.parse` are written with an explicit
  fuel argument so that they are structurally recursive and evaluable by
  `decide`; the fuel supplied (`finalIdx + 1 - dIdx`, resp.
  `data.length + 1`) always dominates the number of loop iterations
  (each iteration strictly advances the scan index), which is proved by
  the fuel-irrelevance lemmas below.
-/

namespace Aprilaire

/-- The `Action` IntEnum of `pyaprilaire/const.py`. -/
inductive Action
  | NONE
  | WRITE
  | READ_REQUEST
  | READ_RESPONSE
  | COS
  | NACK
deriving DecidableEq, Repr

/-- Integer value of each `Action` enumerant (`const.py`). -/
def Action.toNat : Action → Nat
  | .NONE => 0
  | .WRITE => 1
  | .READ_REQUEST => 2
  | .READ_RESPONSE => 3
  | .COS => 5
  | .NACK => 6

/-- Python `Action(n)`: succeeds exactly on the enumerant values, raising
`ValueError` (here `none`) otherwise. -/
def Action.ofNat? : Nat → Option Action
  | 0 => some .NONE
  | 1 => some .WRITE
  | 2 => some .READ_REQUEST
  | 3 => some .READ_RESPONSE
  | 5 => some .COS
  | 6 => some .NACK
  | _ => none

/-- The `FunctionalDomain` IntEnum of `pyaprilaire/const.py`. -/
inductive FunctionalDomain
  | NONE
  | SETUP
  | CONTROL
  | SCHEDULING
  | ALERTS
  | SENSORS
  | LOCKOUT
  | STATUS
  | IDENTIFICATION
  | MESSAGING
  | DISPLAY
  | WEATHER
  | FIRMWARE_UPDATE
  | DEBUG_COMMANDS
  | NACK
deriving DecidableEq, Repr

/-- Integer value of each `FunctionalDomain` enumerant (`const.py`). -/
def FunctionalDomain.toNat : FunctionalDomain → Nat
  | .NONE => 0
  | .SETUP => 1
  | .CONTROL => 2
  | .SCHEDULING => 3
  | .ALERTS => 4
  | .SENSORS => 5
  | .LOCKOUT => 6
  | .STATUS => 7
  | .IDENTIFICATION => 8
  | .MESSAGING => 9
  | .DISPLAY => 10
  | .WEATHER => 13
  | .FIRMWARE_UPDATE => 14
  | .DEBUG_COMMANDS => 15
  | .NACK => 16

/-- Python `FunctionalDomain(n)`: note 11 and 12 are not enumerants. -/
def FunctionalDomain.ofNat? : Nat → Option FunctionalDomain
  | 0 => some .NONE
  | 1 => some .SETUP
  | 2 => some .CONTROL
  | 3 => some .SCHEDULING
  | 4 => some .ALERTS
  | 5 => some .SENSORS
  | 6 => some .LOCKOUT
  | 7 => some .STATUS
  | 8 => some .IDENTIFICATION
  | 9 => some .MESSAGING
  | 10 => some .DISPLAY
  | 13 => some .WEATHER
  | 14 => some .FIRMWARE_UPDATE
  | 15 => some .DEBUG_COMMANDS
  | 16 => some .NACK
  | _ => none

/-- The `ValueType` enum of `pyaprilaire/packet.py`. -/
inductive VType
  | integer
  | integerRequired
  | temperature
  | temperatureRequired
  | humidity
  | macAddress
  | text
deriving DecidableEq, Repr

/-- One row of the `MAPPING` schema: the Python tuples
`(attribute_name, value_type)` and `(attribute_name, ValueType.TEXT, n)`;
`(None, None)` rows have both fields `none`. -/
structure SchemaEntry where
  name : Option String
  vtype : Option VType
  textLen : Option Nat
deriving DecidableEq, Repr

/-- A `(None, None)` placeholder row of the schema. -/
def reservedEntry : SchemaEntry := ⟨none, none, none⟩

/-- A named `(name, value_type)` schema row. -/
def fieldEntry (nm : String) (t : VType) : SchemaEntry := ⟨some nm, some t, none⟩

/-- A `(name, ValueType.TEXT, n)` schema row. -/
def textEntry (nm : String) (tl : Nat) : SchemaEntry := ⟨some nm, some .text, some tl⟩

/-- `MAPPING[READ_RESPONSE][SETUP][1]`: 26 reserved rows, the
`away_available` integer, then 17 more reserved rows. -/
def setupSchema1 : List SchemaEntry :=
  List.replicate 26 reservedEntry
    ++ [fieldEntry "away_available" .integer]
    ++ List.replicate 17 reservedEntry

/-- `MAPPING[READ_RESPONSE][CONTROL]` by attribute. -/
def controlSchema : Nat → Option (List SchemaEntry)
  | 1 => some
      [fieldEntry "mode" .integerRequired,
       fieldEntry "fan_mode" .integerRequired,
       fieldEntry "heat_setpoint" .temperatureRequired,
       fieldEntry "cool_setpoint" .temperatureRequired]
  | 3 => some [fieldEntry "dehumidification_setpoint" .humidity]
  | 4 => some [fieldEntry "humidification_setpoint" .humidity]
  | 5 => some
      [fieldEntry "fresh_air_mode" .integer,
       fieldEntry "fresh_air_event" .integer]
  | 6 => some
      [fieldEntry "air_cleaning_mode" .integer,
       fieldEntry "air_cleaning_event" .integer]
  | 7 => some
      [fieldEntry "thermostat_modes" .integer,
       fieldEntry "air_cleaning_available" .integer,
       fieldEntry "ventilation_available" .integer,
       fieldEntry "dehumidification_available" .integer,
       fieldEntry "humidification_available" .integer]
  | _ => none

/-- `MAPPING[READ_RESPONSE][SCHEDULING]` by attribute. -/
def schedulingSchema : Nat → Option (List SchemaEntry)
  | 4 => some (fieldEntry "hold" .integer :: List.replicate 9 reservedEntry)
  | _ => none

/-- `MAPPING[READ_RESPONSE][SENSORS]` by attribute. -/
def sensorsSchema : Nat → Option (List SchemaEntry)
  | 1 => some
      [fieldEntry "built_in_temperature_sensor_status" .integer,
       fieldEntry "built_in_temperature_sensor_value" .temperature,
       fieldEntry "wired_remote_temperature_sensor_status" .integer,
       fieldEntry "wired_remote_temperature_sensor_value" .temperature,
       fieldEntry "wired_outdoor_temperature_sensor_status" .integer,
       fieldEntry "wired_outdoor_temperature_sensor_value" .temperature,
       fieldEntry "built_in_humidity_sensor_status" .integer,
       fieldEntry "built_in_humidity_sensor_value" .humidity,
       fieldEntry "rat_sensor_status" .integer,
       fieldEntry "rat_sensor_value" .temperature,
       fieldEntry "lat_sensor_status" .integer,
       fieldEntry "lat_sensor_value" .temperature,
       fieldEntry "wireless_outdoor_temperature_sensor_status" .integer,
       fieldEntry "wireless_outdoor_temperature_sensor_value" .temperature,
       fieldEntry "wireless_outdoor_humidity_sensor_status" .integer,
       fieldEntry "wireless_outdoor_humidity_sensor_value" .humidity]
  | 2 => some
      [fieldEntry "indoor_temperature_controlling_sensor_status" .integer,
       fieldEntry "indoor_temperature_controlling_sensor_value" .temperature,
       fieldEntry "outdoor_temperature_controlling_sensor_status" .integer,
       fieldEntry "outdoor_temperature_controlling_sensor_value" .temperature,
       fieldEntry "indoor_humidity_controlling_sensor_status" .integer,
       fieldEntry "indoor_humidity_controlling_sensor_value" .humidity,
       fieldEntry "outdoor_humidity_controlling_sensor_status" .integer,
       fieldEntry "outdoor_humidity_controlling_sensor_value" .humidity]
  | _ => none

/-- `MAPPING[READ_RESPONSE][STATUS]` by attribute. -/
def statusSchema : Nat → Option (List SchemaEntry)
  | 2 => some [fieldEntry "synced" .integer]
  | 6 => some
      [fieldEntry "heating_equipment_status" .integer,
       fieldEntry "cooling_equipment_status" .integer,
       fieldEntry "progressive_recovery" .integer,
       fieldEntry "fan_status" .integer]
  | 7 => some
      [fieldEntry "dehumidification_status" .integer,
       fieldEntry "humidification_status" .integer,
       fieldEntry "ventilation_status" .integer,
       fieldEntry "air_cleaning_status" .integer]
  | 8 => some [fieldEntry "error" .integer]
  | _ => none

/-- `MAPPING[READ_RESPONSE][IDENTIFICATION]` by attribute. -/
def identificationSchema : Nat → Option (List SchemaEntry)
  | 1 => some
      [fieldEntry "hardware_revision" .integer,
       fieldEntry "firmware_major_revision" .integer,
       fieldEntry "firmware_minor_revision" .integer,
       fieldEntry "protocol_major_revision" .integer,
       fieldEntry "model_number" .integer,
       fieldEntry "gainspan_firmware_major_revision" .integer,
       fieldEntry "gainspan_firmware_minor_revision" .integer]
  | 2 => some [fieldEntry "mac_address" .macAddress]
  | 4 => some [textEntry "location" 7, textEntry "name" 15]
  | 5 => some [textEntry "location" 7, textEntry "name" 15]
  | _ => none

/-- The `MAPPING[READ_RESPONSE]` table of `packet.py`, keyed by domain
and attribute. -/
def mappingRR : FunctionalDomain → Nat → Option (List SchemaEntry)
  | .SETUP, 1 => some setupSchema1
  | .CONTROL, a => controlSchema a
  | .SCHEDULING, a => schedulingSchema a
  | .SENSORS, a => sensorsSchema a
  | .STATUS, a => statusSchema a
  | .IDENTIFICATION, a => identificationSchema a
  | _, _ => none

/-- The full `MAPPING`: `COS`, `WRITE` and `READ_REQUEST` alias the
`READ_RESPONSE` table (`packet.py` lines 253-255); other actions are
absent from the dict. -/
def MAPPING : Action → FunctionalDomain → Nat → Option (List SchemaEntry)
  | .READ_RESPONSE, d, a => mappingRR d a
  | .COS, d, a => mappingRR d a
  | .WRITE, d, a => mappingRR d a
  | .READ_REQUEST, d, a => mappingRR d a
  | _, _, _ => none

/-- A heterogeneous Python dict value as stored in `Packet.data`:
integers (also raw humidity), decoded temperatures (floats, here `ℚ`),
strings (decoded text and MAC addresses, as `List Char`), raw MAC byte
lists (caller-supplied for serialization), and Python `None`. -/
inductive PyValue
  | pyNone
  | int (n : Nat)
  | temp (q : ℚ)
  | str (s : List Char)
  | mac (bs : List Nat)
deriving DecidableEq, Repr

/-- The `Packet.data` dict: an insertion-ordered association list. -/
abbrev Fields := List (String × PyValue)

/-- A parsed or outbound message: `Packet` (with its constructor fields
`action, functional_domain, attribute, revision, sequence, count, data,
raw_data`) or the `NackPacket` subclass (which fixes
`action=NACK, functional_domain=NACK, attribute=0` and carries
`nack_attribute`). -/
inductive Msg
  | pkt (action : Action) (domain : FunctionalDomain)
      (attr revision sequence count : Nat)
      (data : Fields) (raw : Option (List Nat))
  | nack (nackAttribute revision sequence count : Nat)
deriving DecidableEq, Repr

/-- The `data` dict of a message (`[]` for `NackPacket`, whose payload
carries no fields). -/
def Msg.dataOf : Msg → Fields
  | .pkt _ _ _ _ _ _ d _ => d
  | .nack _ _ _ _ => []

/-- `Packet._encode_temperature`: `floor(abs(t)) + (64 if t % 1 >= 0.5)
+ (128 if t < 0)`.  Python `t % 1` on floats is `t - floor(t)`. -/
def encodeTemperature (t : ℚ) : Nat :=
  (Int.floor |t|).toNat
    + (if 1/2 ≤ t - Int.floor t then 64 else 0)
    + (if t < 0 then 128 else 0)

/-- `Packet._decode_temperature`: bits 0-5 magnitude, bit 6 adds 0.5,
bit 7 negates. -/
def decodeTemperature (raw : Nat) : ℚ :=
  let tv : ℚ := ((raw &&& 63 : Nat) : ℚ)
  let r1 := raw >>> 6
  let tv := if r1 &&& 1 ≠ 0 then tv + 1/2 else tv
  let r2 := r1 >>> 1
  if r2 &&& 1 = 0 then tv else -tv

/-- `Packet._decode_humidity`: `None` outside `1..99`, else the raw
value. -/
def decodeHumidity (raw : Nat) : PyValue :=
  if raw ≤ 0 ∨ 100 ≤ raw then .pyNone else .int raw

/-- `Packet._encode_int_value`: the serializer's two-byte encoding
`((value >> 8) & 0xFF, value & 0xFF)`. -/
def encodeIntValue (v : Nat) : Nat × Nat :=
  ((v >>> 8) &&& 0xFF, v &&& 0xFF)

/-- The parse-side length combiner of `Packet.parse` line 286:
`data[2] << 2 | data[3]` (a 2-bit shift, unlike the 8-bit shift used by
`_encode_int_value`). -/
def decodeCount (hi lo : Nat) : Nat := (hi <<< 2) ||| lo

/-- One shift step of the CRC-8 register: polynomial 0x31, no
reflection. -/
def crc8Step (c : Nat) : Nat :=
  if c &&& 0x80 ≠ 0 then ((c <<< 1) ^^^ 0x31) &&& 0xFF else (c <<< 1) &&& 0xFF

/-- Absorb one byte into the CRC-8 register. -/
def crc8Byte (c b : Nat) : Nat := crc8Step^[8] (c ^^^ b)

/-- `Packet._generate_crc`: CRC-8, polynomial 0x31, init 0, no
reflection, no final xor (the `crc` library `Calculator` configured in
`packet.py`). -/
def crc8 (l : List Nat) : Nat := l.foldl crc8Byte 0

/-- The TEXT serializer loop of `Packet.serialize`: emit
`ord(data_value[i])` for `i < len`, else `0`, for `i` in
`0..text_length` inclusive (truncating past `text_length + 1`). -/
def textBytes (tl : Nat) (cs : List Char) : List Nat :=
  (cs.map Char.toNat).take (tl + 1) ++ List.replicate (tl + 1 - cs.length) 0

/-- The TEXT parse rule for one byte: `" " if b == 0 else chr(b)`. -/
def byteChar (b : Nat) : Char := if b = 0 then ' ' else Char.ofNat b

/-- One lowercase hex digit. -/
def hexDigitChar (n : Nat) : Char :=
  if n < 10 then Char.ofNat (48 + n) else Char.ofNat (87 + n)

/-- Python `f"{b:x}"` for a byte: lowercase hex without zero-padding.
Inputs are single bytes (< 256), so at most two digits arise. -/
def byteHexChars (b : Nat) : List Char :=
  if b < 16 then [hexDigitChar b] else [hexDigitChar (b / 16), hexDigitChar (b % 16)]

/-- The MAC parse rule: hex octets joined by `":"`. -/
def macChars (bs : List Nat) : List Char :=
  List.intercalate [':'] (bs.map byteHexChars)

/-- Python `text.strip(" ")`: drop spaces from both ends. -/
def pyStrip (cs : List Char) : List Char :=
  ((cs.dropWhile (· = ' ')).reverse.dropWhile (· = ' ')).reverse

/-- Read `n` consecutive bytes starting at index `i`; `none` on any
out-of-range access (Python `IndexError`). -/
def readBytes (data : List Nat) (i : Nat) : Nat → Option (List Nat)
  | 0 => some []
  | k + 1 =>
    match data.get? i with
    | none => none
    | some b =>
      match readBytes data (i + 1) k with
      | none => none
      | some rest => some (b :: rest)

/-- One schema row of the serializer's field loop (`Packet.serialize`).
`data.get(attribute_name)` is the association-list lookup (for a
reserved row, `attribute_name` is `None` and the lookup misses).  A
result of `none` models the `TypeError`/`ValueError` that
`bytes(result)` would raise on a `None` or non-byte element. -/
def serializeField (d : Fields) (e : SchemaEntry) : Option (List Nat) :=
  let v : Option PyValue := e.name.bind (fun nm => List.lookup nm d)
  match e.vtype with
  | some .integer | some .integerRequired | some .humidity =>
    match v with
    | some (.int n) => some [n]
    | _ => none
  | some .temperature | some .temperatureRequired =>
    match v with
    | some (.temp q) => some [encodeTemperature q]
    | _ => none
  | some .macAddress =>
    match v with
    | some (.mac bs) => some bs
    | _ => none
  | some .text =>
    match e.textLen, v with
    | some tl, some (.str cs) => some (textBytes tl cs)
    | _, _ => none
  | none => some [0]

/-- The serializer's field loop over a whole schema, in schema order. -/
def serializeFields (schema : List SchemaEntry) (d : Fields) : Option (List Nat) :=
  match schema with
  | [] => some []
  | e :: rest =>
    match serializeField d e with
    | none => none
    | some b =>
      match serializeFields rest d with
      | none => none
      | some bs => some (b ++ bs)

/-- The tail of `Packet.serialize`: prepend the envelope
`[1, sequence, length_hi, length_lo]` (revision is the literal `1`),
append the CRC, and form `bytes(result)` — which fails unless every
element is a byte. -/
def finishFrame (seq : Nat) (payload : List Nat) : Option (List Nat) :=
  let hl := encodeIntValue payload.length
  let result := [1, seq, hl.1, hl.2] ++ payload
  let out := result ++ [crc8 result]
  if out.all (· < 256) then some out else none

/-- `Packet.serialize`: NACK packets use the two-byte payload
`[int(Action.NACK), nack_attribute]`; otherwise the payload is
`[action, domain, attribute]` followed by `raw_data` verbatim if set,
else the schema fields for `WRITE`/`READ_RESPONSE`/`COS` (a schema miss
is a `KeyError`), else nothing. -/
def serializePacket : Msg → Option (List Nat)
  | .nack a _ seq _ => finishFrame seq [Action.NACK.toNat, a]
  | .pkt act dom attr _ seq _ d raw =>
    let fieldPart : Option (List Nat) :=
      match raw with
      | some r => some r
      | none =>
        if act = .WRITE ∨ act = .READ_RESPONSE ∨ act = .COS then
          match MAPPING act dom attr with
          | some s => serializeFields s d
          | none => none
        else some []
    match fieldPart with
    | none => none
    | some fp => finishFrame seq ([act.toNat, dom.toNat, attr] ++ fp)

/-- One iteration of the inner field loop of `Packet.parse` (the body
of `while data_index <= final_index`).  The Python loop walks the
schema with a numeric `attribute_index`; here the not-yet-consumed
suffix of the schema plays that role (an index at or past the end of
the list is the empty suffix, for which the body consumes one byte
without advancing the index — the `pass` branch).  The result is the
loop state `(remaining schema, data_index, packet.data)` after one
iteration, or `none` for a Python `IndexError`. -/
def fieldsStep (data : List Nat) (schema : List SchemaEntry) (dIdx : Nat)
    (acc : Fields) : Option (List SchemaEntry × Nat × Fields) :=
  match schema with
  | [] => some ([], dIdx + 1, acc)
  | e :: rest =>
    match e.name, e.vtype with
    | some nm, some vt =>
      match data.get? dIdx with
      | none => none
      | some dv =>
        match vt with
        | .integer => some (rest, dIdx + 1, acc ++ [(nm, .int dv)])
        | .integerRequired =>
          if dv ≠ 0 then some (rest, dIdx + 1, acc ++ [(nm, .int dv)])
          else some (rest, dIdx + 1, acc)
        | .humidity => some (rest, dIdx + 1, acc ++ [(nm, decodeHumidity dv)])
        | .temperature =>
          some (rest, dIdx + 1, acc ++ [(nm, .temp (decodeTemperature dv))])
        | .temperatureRequired =>
          if dv ≠ 0 then
            some (rest, dIdx + 1, acc ++ [(nm, .temp (decodeTemperature dv))])
          else some (rest, dIdx + 1, acc)
        | .macAddress =>
          match readBytes data dIdx 6 with
          | none => none
          | some mbs => some (rest, dIdx + 6, acc ++ [(nm, .str (macChars mbs))])
        | .text =>
          match e.textLen, readBytes data dIdx (e.textLen.getD 0) with
          | some tl, some tbs =>
            some (rest, dIdx + tl + 1, acc ++ [(nm, .str (pyStrip (tbs.map byteChar)))])
          | _, _ => none
    | _, _ => some (rest, dIdx + 1, acc)

/-- The inner field loop of `Packet.parse` (`while data_index <=
final_index`), iterating `fieldsStep`.  `fuel` bounds the number of
loop iterations and makes the function structurally recursive; every
iteration advances `dIdx` by at least one, so `finalIdx + 1 - dIdx`
iterations always suffice (see `parseFieldsAux_irrel`). -/
def parseFieldsAux (data : List Nat) (finalIdx : Nat) :
    Nat → List SchemaEntry → Nat → Fields → Except Unit (Fields × Nat)
  | fuel, schema, dIdx, acc =>
    if dIdx ≤ finalIdx then
      match fuel with
      | 0 => .error ()
      | fuel + 1 =>
        match fieldsStep data schema dIdx acc with
        | none => .error ()
        | some (schema', dIdx', acc') =>
          parseFieldsAux data finalIdx fuel schema' dIdx' acc'
    else .ok (acc, dIdx)

/-- The field loop with its always-sufficient fuel. -/
def parseFieldsRun (data : List Nat) (finalIdx : Nat) (schema : List SchemaEntry)
    (dIdx : Nat) (acc : Fields) : Except Unit (Fields × Nat) :=
  parseFieldsAux data finalIdx (finalIdx + 1 - dIdx) schema dIdx acc

/-- The outcome of processing the frame that starts at index `i`. -/
inductive FrameStep
  /-- A Python `IndexError` escaped (truncated buffer). -/
  | fault
  /-- Unrecognized action/domain or schema miss: skip to `next`
  (`data_index += count + 5`) yielding nothing. -/
  | skip (next : Nat)
  /-- A NACK frame: yield `NackPacket(attr)` and skip to `next`. -/
  | nackMsg (attr : Nat) (next : Nat)
  /-- A schema-recognized frame: packet `m`, CRC verification outcome
  `crcOk`, and the index just past the CRC byte. -/
  | known (m : Msg) (crcOk : Bool) (next : Nat)
deriving DecidableEq, Repr

/-- One iteration of the scan loop of `Packet.parse` (lines 283-403),
without the recursion: read the envelope `revision, sequence` and the
two length bytes, combine them with the 2-bit shift, read
`action, functional_domain, attribute`; skip unknown actions/domains
(the bare `except` around the enum conversions), yield NACKs by kind
alone (before any schema or CRC check, reading the rejected attribute
from the byte after the kind), skip schema misses, and otherwise run
the field loop from `data_index + 7` to `final_index = data_index +
count + 3`, read the trailing CRC byte, and verify the checksum over
`data[payload_start_index:data_index]`. -/
def frameStep (data : List Nat) (i : Nat) : FrameStep :=
  match data.get? i, data.get? (i+1), data.get? (i+2), data.get? (i+3),
        data.get? (i+4), data.get? (i+5), data.get? (i+6) with
  | some rev, some seq, some b2, some b3, some b4, some b5, some b6 =>
    match Action.ofNat? b4 with
    | none => .skip (i + decodeCount b2 b3 + 5)
    | some act =>
      match FunctionalDomain.ofNat? b5 with
      | none => .skip (i + decodeCount b2 b3 + 5)
      | some dom =>
        if act = Action.NACK then .nackMsg b5 (i + decodeCount b2 b3 + 5)
        else
          match MAPPING act dom b6 with
          | none => .skip (i + decodeCount b2 b3 + 5)
          | some schema =>
            match parseFieldsRun data (i + decodeCount b2 b3 + 3) schema (i + 7) [] with
            | .error _ => .fault
            | .ok fd =>
              match data.get? fd.2 with
              | none => .fault
              | some crcByte =>
                .known (.pkt act dom b6 rev seq (decodeCount b2 b3) fd.1 none)
                  (crc8 ((data.drop i).take (fd.2 - i)) == crcByte) (fd.2 + 1)
  | _, _, _, _, _, _, _ => .fault

/-- The scan position after a frame, when the frame does not fault. -/
def FrameStep.next? : FrameStep → Option Nat
  | .fault => none
  | .skip n => some n
  | .nackMsg _ n => some n
  | .known _ _ n => some n

/-- The scan loop of `Packet.parse` (`while data_index < len(data)`),
with explicit fuel: each iteration strictly advances the index, so
`data.length + 1` units of fuel always suffice. -/
def parseFramesAux (data : List Nat) : Nat → Nat → Except Unit (List Msg)
  | 0, _ => .error ()
  | fuel + 1, i =>
    if i < data.length then
      match frameStep data i with
      | .fault => .error ()
      | .skip n => parseFramesAux data fuel n
      | .nackMsg a n => (parseFramesAux data fuel n).map (fun ms => .nack a 1 0 0 :: ms)
      | .known m crcOk n =>
        (parseFramesAux data fuel n).map (fun ms => if crcOk then m :: ms else ms)
    else .ok []

/-- The scan of `Packet.parse` from index `i` onwards. -/
def parseFrom (data : List Nat) (i : Nat) : Except Unit (List Msg) :=
  parseFramesAux data (data.length + 1) i

/-- `Packet.parse`: the full list of yielded packets, or an uncaught
`IndexError`. -/
def parse (data : List Nat) : Except Unit (List Msg) := parseFrom data 0

/-- The per-packet decision of `_AprilaireClientProtocol.data_received`
(`client.py`). -/
inductive SessionEffect
  /-- `NackPacket`: log "Received NACK for attribute n" and `continue`
  (never forwarded to the subscriber callback). -/
  | logNack (attr : Nat)
  /-- The COS/Control/1/mode==1 quirk: schedule `read_control()` — a
  `READ_REQUEST` for the given domain and attribute — and `continue`
  without forwarding. -/
  | reread (domain : FunctionalDomain) (attr : Nat)
  /-- Forward `(functional_domain, attribute, data)` to the subscriber
  callback. -/
  | forward (domain : FunctionalDomain) (attr : Nat) (data : Fields)
deriving DecidableEq, Repr

/-- Python `packet.data.get("mode") == 1` (an int compares equal to 1,
a float 1.0 would too; `None` and other types do not). -/
def pyEqOne : Option PyValue → Bool
  | some (.int n) => n == 1
  | some (.temp q) => q == 1
  | _ => false

/-- The dispatch decision of `_AprilaireClientProtocol.data_received`
for one decoded packet (the subscriber callback is assumed installed;
the nonzero-error logging does not affect which effect is produced). -/
def handlePacket : Msg → SessionEffect
  | .nack a _ _ _ => .logNack a
  | .pkt act dom attr _ _ _ d _ =>
    if act = .COS ∧ dom = .CONTROL ∧ attr = 1 ∧ pyEqOne (List.lookup "mode" d) then
      .reread .CONTROL 1
    else .forward dom attr d

/-- Dispatch of a whole decoded packet list, in arrival order. -/
def sessionEffects (ms : List Msg) : List SessionEffect := ms.map handlePacket

/-- The key of the `AprilaireClient.futures` dict. -/
abbrev FutureKey := FunctionalDomain × Nat

/-- The lifecycle state of one `asyncio.Future` waiter. -/
inductive FutureState
  | pending
  | resolved (d : Fields)
  | cancelled
deriving DecidableEq, Repr

/-- `future.set_result(data)` inside `try/except InvalidStateError`:
resolve a pending future, and leave an already resolved, timed-out or
cancelled future untouched (the exception is swallowed — a benign
no-op, not an error). -/
def trySetResult (f : FutureState) (d : Fields) : FutureState :=
  match f with
  | .pending => .resolved d
  | other => other

/-- The waiter table, modelled as a total map from keys to waiter
lists (absent keys map to `[]`, matching `futures.pop(key, [])`). -/
abbrev FuturesMap := FutureKey → List FutureState

/-- The registration step of `AprilaireClient.wait_for_response`:
append a fresh pending future to the key's list. -/
def registerWaiter (m : FuturesMap) (k : FutureKey) : FuturesMap :=
  fun k' => if k' = k then m k ++ [.pending] else m k'

/-- What one run of `AprilaireClient.data_received` did. -/
structure DispatchResult where
  /-- The dict handed to `data_received_callback` (always invoked,
  before the zero-key guard). -/
  callbackData : Fields
  /-- The waiter table afterwards. -/
  newFutures : FuturesMap
  /-- The key whose waiter list was popped and resolved, if any. -/
  resolvedKey : Option FutureKey
  /-- The post-`set_result` states of the popped waiters. -/
  resolvedList : List FutureState

/-- `AprilaireClient.data_received`: invoke the subscriber callback;
then, unless the functional domain or the attribute is falsy (the
integer 0, i.e. `FunctionalDomain.NONE` resp. attribute 0), pop every
waiter registered under `(functional_domain, attribute)` and resolve
each with the payload. -/
def clientDataReceived (futures : FuturesMap) (dom : FunctionalDomain)
    (attr : Nat) (d : Fields) : DispatchResult :=
  if dom = .NONE ∨ attr = 0 then
    ⟨d, futures, none, []⟩
  else
    ⟨d, fun k => if k = (dom, attr) then [] else futures k,
     some (dom, attr), (futures (dom, attr)).map (fun f => trySetResult f d)⟩

/-- The caller-visible outcome of `wait_for_response` given the final
state of its future: the payload if the future was resolved before the
timeout, else the `None` sentinel returned by the
`asyncio.TimeoutError` handler. -/
def waitOutcome : FutureState → Option Fields
  | .resolved d => some d
  | _ => none

/-- The state touched by one wake of `_queue_loop`: whether
`self.transport` is live, and the queue contents (head = oldest). -/
structure ProtocolState where
  transport : Bool
  queue : List Msg
deriving DecidableEq, Repr

/-- The drain loop body (`while packet := get_nowait(): if transport:
write(packet.serialize())`): every queued packet is consumed; each is
serialized and written only when the transport is live.  Each element
of the result is one write (the serializer's output). -/
def drainQueue (transport : Bool) : List Msg → List (Option (List Nat))
  | [] => []
  | p :: rest =>
    if transport then serializePacket p :: drainQueue transport rest
    else drainQueue transport rest

/-- One wake of `_queue_loop`: the writes performed and the state
afterwards (the queue is left empty; `QueueEmpty` is swallowed). -/
def queueLoopWake (s : ProtocolState) : List (Option (List Nat)) × ProtocolState :=
  (drainQueue s.transport s.queue, ⟨s.transport, []⟩)

/-- A sample waiter table: one pending and one cancelled waiter under
`(CONTROL, 1)`, nothing elsewhere. -/
def demoFutures : FuturesMap :=
  fun k => if k = (FunctionalDomain.CONTROL, 1)
    then [FutureState.pending, FutureState.cancelled] else []

instance {ε α : Type} [DecidableEq ε] [DecidableEq α] : DecidableEq (Except ε α)
  | .ok a, .ok b =>
    if h : a = b then .isTrue (by rw [h]) else .isFalse (fun hc => h (by injection hc))
  | .error a, .error b =>
    if h : a = b then .isTrue (by rw [h]) else .isFalse (fun hc => h (by injection hc))
  | .ok _, .error _ => .isFalse (fun hc => Except.noConfusion hc)
  | .error _, .ok _ => .isFalse (fun hc => Except.noConfusion hc)

/-- The CRC register stays a byte after every shift step. -/
lemma crc8Step_lt (c : Nat) : crc8Step c < 256 := by
  unfold crc8Step
  split <;> exact Nat.lt_succ_of_le (Nat.and_le_right)

/-- Absorbing a byte leaves the register a byte. -/
lemma crc8Byte_lt (c b : Nat) : crc8Byte c b < 256 := by
  have : ∀ n x, 0 < n → crc8Step^[n] x < 256 := by
    intro n
    induction n with
    | zero => omega
    | succ k ih =>
      intro x _
      rw [Function.iterate_succ_apply']
      exact crc8Step_lt _
  exact this 8 _ (by omega)

/-- The checksum is always a byte. -/
lemma crc8_lt (l : List Nat) : crc8 l < 256 := by
  rcases List.eq_nil_or_concat l with rfl | ⟨l', b, rfl⟩
  · simp [crc8]
  · rw [crc8, List.concat_eq_append, List.foldl_append]
    exact crc8Byte_lt _ _

/-- Unfolding the field loop at positive fuel. -/
lemma parseFieldsAux_succ (data : List Nat) (finalIdx m : Nat)
    (schema : List SchemaEntry) (dIdx : Nat) (acc : Fields) :
    parseFieldsAux data finalIdx (m + 1) schema dIdx acc
      = if dIdx ≤ finalIdx then
          (match fieldsStep data schema dIdx acc with
           | none => .error ()
           | some (schema', dIdx', acc') =>
             parseFieldsAux data finalIdx m schema' dIdx' acc')
        else .ok (acc, dIdx) := rfl

/-- Unfolding the field loop at zero fuel. -/
lemma parseFieldsAux_zero (data : List Nat) (finalIdx : Nat)
    (schema : List SchemaEntry) (dIdx : Nat) (acc : Fields) :
    parseFieldsAux data finalIdx 0 schema dIdx acc
      = if dIdx ≤ finalIdx then .error () else .ok (acc, dIdx) := rfl

/-- One field-loop iteration strictly advances the scan index. -/
lemma fieldsStep_gt {data : List Nat} {schema : List SchemaEntry} {dIdx : Nat}
    {acc : Fields} {s' : List SchemaEntry} {d' : Nat} {a' : Fields}
    (h : fieldsStep data schema dIdx acc = some (s', d', a')) : dIdx < d' := by
  unfold fieldsStep at h
  repeat' split at h
  all_goals simp_all
  all_goals omega

/-- Any two sufficient fuels give the field loop the same result. -/
lemma parseFieldsAux_irrel {data : List Nat} {finalIdx : Nat} :
    ∀ (fuel fuel' : Nat) (schema : List SchemaEntry) (dIdx : Nat) (acc : Fields),
      finalIdx + 1 - dIdx ≤ fuel → finalIdx + 1 - dIdx ≤ fuel' →
      parseFieldsAux data finalIdx fuel schema dIdx acc
        = parseFieldsAux data finalIdx fuel' schema dIdx acc := by
  intro fuel
  induction fuel with
  | zero =>
    intro fuel' schema dIdx acc h _
    have hn : ¬ dIdx ≤ finalIdx := by omega
    cases fuel' with
    | zero => rfl
    | succ m => rw [parseFieldsAux_zero, parseFieldsAux_succ, if_neg hn, if_neg hn]
  | succ n ih =>
    intro fuel' schema dIdx acc h h'
    by_cases hc : dIdx ≤ finalIdx
    · obtain ⟨m, rfl⟩ : ∃ m, fuel' = m + 1 := ⟨fuel' - 1, by omega⟩
      rw [parseFieldsAux_succ, parseFieldsAux_succ, if_pos hc, if_pos hc]
      rcases hfs : fieldsStep data schema dIdx acc with _ | ⟨s', d', a'⟩
      · rfl
      · have hgt := fieldsStep_gt hfs
        exact ih m s' d' a' (by omega) (by omega)
    · cases fuel' with
      | zero => rw [parseFieldsAux_succ, parseFieldsAux_zero, if_neg hc, if_neg hc]
      | succ m => rw [parseFieldsAux_succ, parseFieldsAux_succ, if_neg hc, if_neg hc]

/-- The field loop never moves the scan index backwards. -/
lemma parseFieldsAux_ok_le {data : List Nat} {finalIdx : Nat} :
    ∀ (fuel : Nat) (schema : List SchemaEntry) (dIdx : Nat) (acc : Fields)
      (res : Fields × Nat),
      parseFieldsAux data finalIdx fuel schema dIdx acc = .ok res → dIdx ≤ res.2 := by
  intro fuel
  induction fuel with
  | zero =>
    intro schema dIdx acc res h
    rw [parseFieldsAux_zero] at h
    split at h
    · exact absurd h (by simp)
    · cases h; exact le_refl _
  | succ n ih =>
    intro schema dIdx acc res h
    rw [parseFieldsAux_succ] at h
    split at h
    · rcases hfs : fieldsStep data schema dIdx acc with _ | ⟨s', d', a'⟩
      · rw [hfs] at h; exact absurd h (by simp)
      · rw [hfs] at h
        exact le_trans (le_of_lt (fieldsStep_gt hfs)) (ih s' d' a' res h)
    · cases h; exact le_refl _

/-- `parseFieldsRun` on a success never moves the index backwards. -/
lemma parseFieldsRun_ok_le {data : List Nat} {finalIdx : Nat}
    {schema : List SchemaEntry} {dIdx : Nat} {acc : Fields} {res : Fields × Nat}
    (h : parseFieldsRun data finalIdx schema dIdx acc = .ok res) : dIdx ≤ res.2 :=
  parseFieldsAux_ok_le _ _ _ _ _ h

/-- Unfolding one iteration of the field loop while the loop condition
holds. -/
lemma parseFieldsRun_step {data : List Nat} {finalIdx : Nat}
    {schema s' : List SchemaEntry} {dIdx d' : Nat} {acc a' : Fields}
    (h : dIdx ≤ finalIdx) (hs : fieldsStep data schema dIdx acc = some (s', d', a')) :
    parseFieldsRun data finalIdx schema dIdx acc
      = parseFieldsRun data finalIdx s' d' a' := by
  unfold parseFieldsRun
  obtain ⟨m, hm⟩ : ∃ m, finalIdx + 1 - dIdx = m + 1 := ⟨finalIdx - dIdx, by omega⟩
  rw [hm, parseFieldsAux_succ, if_pos h, hs]
  exact parseFieldsAux_irrel m _ s' d' a' (by have := fieldsStep_gt hs; omega) (le_refl _)

/-- The field loop exits as soon as the index passes `final_index`. -/
lemma parseFieldsRun_stop {data : List Nat} {finalIdx : Nat}
    {schema : List SchemaEntry} {dIdx : Nat} {acc : Fields}
    (h : ¬ dIdx ≤ finalIdx) :
    parseFieldsRun data finalIdx schema dIdx acc = .ok (acc, dIdx) := by
  rw [parseFieldsRun]
  have hz : finalIdx + 1 - dIdx = 0 := by omega
  rw [hz, parseFieldsAux_zero, if_neg h]

/-- A faulting field-loop iteration makes the whole loop fault. -/
lemma parseFieldsRun_fault {data : List Nat} {finalIdx : Nat}
    {schema : List SchemaEntry} {dIdx : Nat} {acc : Fields}
    (h : dIdx ≤ finalIdx) (hs : fieldsStep data schema dIdx acc = none) :
    parseFieldsRun data finalIdx schema dIdx acc = .error () := by
  unfold parseFieldsRun
  obtain ⟨m, hm⟩ : ∃ m, finalIdx + 1 - dIdx = m + 1 := ⟨finalIdx - dIdx, by omega⟩
  rw [hm, parseFieldsAux_succ, if_pos h, hs]

/-- Every non-faulting frame strictly advances the scan position. -/
lemma frameStep_next_gt (data : List Nat) (i : Nat) :
    ∀ n, (frameStep data i).next? = some n → i < n := by
  intro n
  unfold frameStep
  rcases h1 : data.get? i with _ | rev
  · simp [FrameStep.next?]
  rcases h2 : data.get? (i+1) with _ | sq
  · simp [FrameStep.next?]
  rcases h3 : data.get? (i+2) with _ | b2
  · simp [FrameStep.next?]
  rcases h4 : data.get? (i+3) with _ | b3
  · simp [FrameStep.next?]
  rcases h5 : data.get? (i+4) with _ | b4
  · simp [FrameStep.next?]
  rcases h6 : data.get? (i+5) with _ | b5
  · simp [FrameStep.next?]
  rcases h7 : data.get? (i+6) with _ | b6
  · simp [FrameStep.next?]
  dsimp only []
  rcases h8 : Action.ofNat? b4 with _ | act
  · intro hn
    simp [FrameStep.next?] at hn
    omega
  dsimp only []
  rcases h9 : FunctionalDomain.ofNat? b5 with _ | dom
  · intro hn
    simp [FrameStep.next?] at hn
    omega
  dsimp only []
  by_cases hna : act = Action.NACK
  · rw [if_pos hna]
    intro hn
    simp [FrameStep.next?] at hn
    omega
  rw [if_neg hna]
  rcases h10 : MAPPING act dom b6 with _ | schema
  · intro hn
    simp [FrameStep.next?] at hn
    omega
  dsimp only []
  rcases h11 : parseFieldsRun data (i + decodeCount b2 b3 + 3) schema (i + 7) [] with e | fd
  · simp [FrameStep.next?]
  dsimp only []
  rcases h12 : data.get? fd.2 with _ | crcByte
  · simp [FrameStep.next?]
  have hle := parseFieldsRun_ok_le h11
  intro hn
  simp [FrameStep.next?] at hn
  omega

/-- A skipped frame advances the scan position. -/
lemma frameStep_skip_gt {data : List Nat} {i n : Nat}
    (h : frameStep data i = .skip n) : i < n :=
  frameStep_next_gt data i n (by rw [h]; rfl)

/-- A NACK frame advances the scan position. -/
lemma frameStep_nack_gt {data : List Nat} {i a n : Nat}
    (h : frameStep data i = .nackMsg a n) : i < n :=
  frameStep_next_gt data i n (by rw [h]; rfl)

/-- A schema-recognized frame advances the scan position. -/
lemma frameStep_known_gt {data : List Nat} {i : Nat} {m : Msg} {c : Bool} {n : Nat}
    (h : frameStep data i = .known m c n) : i < n :=
  frameStep_next_gt data i n (by rw [h]; rfl)

/-- Unfolding the scan loop at positive fuel. -/
lemma parseFramesAux_succ (data : List Nat) (m i : Nat) :
    parseFramesAux data (m + 1) i
      = if i < data.length then
          (match frameStep data i with
           | .fault => .error ()
           | .skip n => parseFramesAux data m n
           | .nackMsg a n => (parseFramesAux data m n).map (fun ms => .nack a 1 0 0 :: ms)
           | .known msg crcOk n =>
             (parseFramesAux data m n).map (fun ms => if crcOk then msg :: ms else ms))
        else .ok [] := rfl

/-- Any two sufficient fuels give the scan loop the same result. -/
lemma parseFramesAux_irrel {data : List Nat} :
    ∀ (fuel fuel' i : Nat), data.length - i < fuel → data.length - i < fuel' →
      parseFramesAux data fuel i = parseFramesAux data fuel' i := by
  intro fuel
  induction fuel with
  | zero => omega
  | succ m ih =>
    intro fuel' i h h'
    obtain ⟨m', rfl⟩ : ∃ m', fuel' = m' + 1 := ⟨fuel' - 1, by omega⟩
    rw [parseFramesAux_succ, parseFramesAux_succ]
    by_cases hi : i < data.length
    · rw [if_pos hi, if_pos hi]
      rcases hfs : frameStep data i with _ | n | ⟨a, n⟩ | ⟨msg, crcOk, n⟩
      · rfl
      · have := frameStep_skip_gt hfs
        exact ih m' n (by omega) (by omega)
      · have := frameStep_nack_gt hfs
        dsimp only []
        rw [ih m' n (by omega) (by omega)]
      · have := frameStep_known_gt hfs
        dsimp only []
        rw [ih m' n (by omega) (by omega)]
    · rw [if_neg hi, if_neg hi]

/-- Unfolding the scan at a position past the end of the buffer. -/
lemma parseFrom_end {data : List Nat} {i : Nat} (h : data.length ≤ i) :
    parseFrom data i = .ok [] := by
  rw [parseFrom, parseFramesAux_succ, if_neg (by omega)]

/-- A skipped frame yields no message; the scan resumes at the skip
target. -/
lemma parseFrom_skip {data : List Nat} {i n : Nat} (hi : i < data.length)
    (h : frameStep data i = .skip n) :
    parseFrom data i = parseFrom data n := by
  rw [parseFrom, parseFrom, parseFramesAux_succ, if_pos hi, h]
  have := frameStep_skip_gt h
  exact parseFramesAux_irrel data.length (data.length + 1) n (by omega) (by omega)

/-- A NACK frame yields exactly one `NackPacket` (before any CRC
check) and the scan resumes at the skip target. -/
lemma parseFrom_nack {data : List Nat} {i a n : Nat} (hi : i < data.length)
    (h : frameStep data i = .nackMsg a n) :
    parseFrom data i = (parseFrom data n).map (fun ms => .nack a 1 0 0 :: ms) := by
  rw [parseFrom, parseFrom, parseFramesAux_succ, if_pos hi, h]
  have := frameStep_nack_gt h
  dsimp only []
  rw [parseFramesAux_irrel data.length (data.length + 1) n (by omega) (by omega)]

/-- A schema-recognized frame is yielded exactly when its CRC byte
verifies; the scan resumes just past the CRC byte either way. -/
lemma parseFrom_known {data : List Nat} {i : Nat} {msg : Msg} {crcOk : Bool} {n : Nat}
    (hi : i < data.length) (h : frameStep data i = .known msg crcOk n) :
    parseFrom data i = (parseFrom data n).map (fun ms => if crcOk then msg :: ms else ms) := by
  rw [parseFrom, parseFrom, parseFramesAux_succ, if_pos hi, h]
  have := frameStep_known_gt h
  dsimp only []
  rw [parseFramesAux_irrel data.length (data.length + 1) n (by omega) (by omega)]

/-- A faulting frame faults the whole parse. -/
lemma parseFrom_fault {data : List Nat} {i : Nat} (hi : i < data.length)
    (h : frameStep data i = .fault) :
    parseFrom data i = .error () := by
  rw [parseFrom, parseFramesAux_succ, if_pos hi, h]

lemma decodeTemperature_eq (b : Nat) :
    decodeTemperature b
      = (if b.testBit 7 then (-1 : ℚ) else 1)
          * (((b &&& 63 : Nat) : ℚ) + (if b.testBit 6 then (1:ℚ)/2 else 0)) := by
  unfold decodeTemperature
  have h6 : (b >>> 6) &&& 1 = b / 2 ^ 6 % 2 := by
    rw [Nat.and_one_is_mod, Nat.shiftRight_eq_div_pow]
  have h7 : (b >>> 6 >>> 1) &&& 1 = b / 2 ^ 7 % 2 := by
    rw [Nat.and_one_is_mod, ← Nat.shiftRight_add, Nat.shiftRight_eq_div_pow]
  rw [Nat.testBit_to_div_mod, Nat.testBit_to_div_mod]
  dsimp only []
  rw [h6, h7]
  rcases Nat.mod_two_eq_zero_or_one (b / 2 ^ 6) with h | h <;>
    rcases Nat.mod_two_eq_zero_or_one (b / 2 ^ 7) with h' | h' <;>
      norm_num at h h' <;> simp [h, h']

lemma temp_roundtrip (q : ℚ) (hden : (2 * q).den = 1) (hle : |q| ≤ 127/2) :
    decodeTemperature (encodeTemperature q) = q := by
  -- Write q = z / 2 for an integer z with |z| ≤ 127.
  set z : ℤ := (2 * q).num with hz
  have hzq : (z : ℚ) = 2 * q := Rat.den_eq_one_iff _ |>.mp hden
  have hq : q = (z : ℚ) / 2 := by rw [hzq]; ring
  have hzabs : |z| ≤ 127 := by
    have : |(z : ℚ)| ≤ 127 := by rw [hzq, abs_mul]; rw [abs_of_nonneg (by norm_num : (0:ℚ) ≤ 2)] at *; linarith [hle]
    exact_mod_cast this
  obtain ⟨k, r, hzkr, hr0, hr1⟩ : ∃ k r : ℤ, z = 2 * k + r ∧ 0 ≤ r ∧ r < 2 :=
    ⟨z / 2, z % 2, by omega, by omega, by omega⟩
  have hrq0 : (0:ℚ) ≤ (r:ℚ) := by exact_mod_cast hr0
  have hrq1 : (r:ℚ) < 2 := by exact_mod_cast hr1
  have hfloor : ⌊q⌋ = k := by
    rw [Int.floor_eq_iff]
    constructor
    · rw [hq, hzkr]; push_cast; linarith
    · rw [hq, hzkr]; push_cast; linarith
  have hfract : q - ⌊q⌋ = (r:ℚ) / 2 := by
    rw [hfloor, hq, hzkr]; push_cast; ring
  -- the encoded byte
  have hmle : ⌊|q|⌋ ≤ 63 := by
    have : ⌊|q|⌋ < 64 := Int.floor_lt.mpr (by linarith [hle] : |q| < (64:ℚ))
    omega
  have hm0 : 0 ≤ ⌊|q|⌋ := Int.floor_nonneg.mpr (abs_nonneg q)
  have hbyte : ∀ (N f s : Nat), N ≤ 63 → f ≤ 1 → s ≤ 1 →
      ((N + 64 * f + 128 * s) &&& 63) = N ∧
      ((N + 64 * f + 128 * s).testBit 6 = (f == 1)) ∧
      ((N + 64 * f + 128 * s).testBit 7 = (s == 1)) := by
    intro N f s hN hf hs
    have hmod := Nat.and_pow_two_sub_one_eq_mod (N + 64 * f + 128 * s) 6
    norm_num at hmod
    refine ⟨?_, ?_, ?_⟩
    · rw [hmod]; omega
    · rcases Nat.le_one_iff_eq_zero_or_eq_one.mp hf with rfl | rfl <;>
        rcases Nat.le_one_iff_eq_zero_or_eq_one.mp hs with rfl | rfl
      all_goals
        first
        | (rw [Nat.testBit_to_div_mod, show ((0:Nat) == 1) = false from rfl,
              decide_eq_false_iff_not]; omega)
        | (rw [Nat.testBit_to_div_mod, show ((1:Nat) == 1) = true from rfl,
              decide_eq_true_eq]; omega)
    · rcases Nat.le_one_iff_eq_zero_or_eq_one.mp hf with rfl | rfl <;>
        rcases Nat.le_one_iff_eq_zero_or_eq_one.mp hs with rfl | rfl
      all_goals
        first
        | (rw [Nat.testBit_to_div_mod, show ((0:Nat) == 1) = false from rfl,
              decide_eq_false_iff_not]; omega)
        | (rw [Nat.testBit_to_div_mod, show ((1:Nat) == 1) = true from rfl,
              decide_eq_true_eq]; omega)
  set N : Nat := ⌊|q|⌋.toNat with hNdef
  have hNZ : (N : ℤ) = ⌊|q|⌋ := Int.toNat_of_nonneg hm0
  have hN63 : N ≤ 63 := by omega
  have hNQ : ((N : ℚ)) = (⌊|q|⌋ : ℚ) := by exact_mod_cast hNZ
  by_cases hqneg : q < 0
  all_goals have hr01 : r = 0 ∨ r = 1 := by omega
  all_goals rcases hr01 with rfl | rfl
  -- q < 0, r = 0 : q = k, integral negative
  · have hqk : q = (k : ℚ) := by rw [hq, hzkr]; push_cast; ring
    have hfcond : ¬ ((1:ℚ)/2 ≤ q - ⌊q⌋) := by rw [hfract]; norm_num
    have hb : encodeTemperature q = N + 64 * 0 + 128 * 1 := by
      rw [encodeTemperature, if_neg hfcond, if_pos hqneg]
    have hflo : ⌊|q|⌋ = -k := by
      rw [abs_of_neg hqneg, hqk, ← Int.cast_neg, Int.floor_intCast]
    rw [hb, decodeTemperature_eq]
    obtain ⟨ha, hb6, hb7⟩ := hbyte N 0 1 hN63 (by omega) (by omega)
    rw [ha, hb6, hb7]
    norm_num
    rw [hNQ, hflo, hqk]
    push_cast
    ring
  -- q < 0, r = 1 : q = k + 1/2 with k ≤ -1
  · have hqk : q = (k : ℚ) + 1/2 := by rw [hq, hzkr]; push_cast; ring
    have hfcond : ((1:ℚ)/2 ≤ q - ⌊q⌋) := by rw [hfract]; norm_num
    have hb : encodeTemperature q = N + 64 * 1 + 128 * 1 := by
      rw [encodeTemperature, if_pos hfcond, if_pos hqneg]
    have hklt : (k : ℚ) < -1/2 := by linarith [hqk, hqneg]
    have hkle : k ≤ -1 := by
      by_contra hcon
      push_neg at hcon
      have hk0 : (0:ℚ) ≤ (k : ℚ) := by exact_mod_cast (by omega : (0:ℤ) ≤ k)
      linarith
    have hflo : ⌊|q|⌋ = -k - 1 := by
      rw [abs_of_neg hqneg, Int.floor_eq_iff]
      constructor
      · rw [hqk]; push_cast; linarith
      · rw [hqk]; push_cast; linarith
    rw [hb, decodeTemperature_eq]
    obtain ⟨ha, hb6, hb7⟩ := hbyte N 1 1 hN63 (by omega) (by omega)
    rw [ha, hb6, hb7]
    norm_num
    rw [hNQ, hflo, hqk]
    push_cast
    ring
  -- 0 ≤ q, r = 0 : q = k, integral nonnegative
  · have hqk : q = (k : ℚ) := by rw [hq, hzkr]; push_cast; ring
    have hfcond : ¬ ((1:ℚ)/2 ≤ q - ⌊q⌋) := by rw [hfract]; norm_num
    have hb : encodeTemperature q = N + 64 * 0 + 128 * 0 := by
      rw [encodeTemperature, if_neg hfcond, if_neg hqneg]
    have hflo : ⌊|q|⌋ = k := by
      rw [abs_of_nonneg (le_of_not_lt hqneg), hqk, Int.floor_intCast]
    rw [hb, decodeTemperature_eq]
    obtain ⟨ha, hb6, hb7⟩ := hbyte N 0 0 hN63 (by omega) (by omega)
    rw [ha, hb6, hb7]
    norm_num
    rw [hNQ, hflo, hqk]
  -- 0 ≤ q, r = 1 : q = k + 1/2 with k ≥ 0
  · have hqk : q = (k : ℚ) + 1/2 := by rw [hq, hzkr]; push_cast; ring
    have hfcond : ((1:ℚ)/2 ≤ q - ⌊q⌋) := by rw [hfract]; norm_num
    have hb : encodeTemperature q = N + 64 * 1 + 128 * 0 := by
      rw [encodeTemperature, if_pos hfcond, if_neg hqneg]
    have hkge : (0:ℤ) ≤ k := by
      by_contra hcon
      push_neg at hcon
      have hk1 : (k : ℚ) ≤ -1 := by exact_mod_cast (by omega : k ≤ (-1 : ℤ))
      have hq0 := le_of_not_lt hqneg
      linarith
    have hflo : ⌊|q|⌋ = k := by
      rw [abs_of_nonneg (le_of_not_lt hqneg), Int.floor_eq_iff]
      constructor
      · rw [hqk]; linarith
      · rw [hqk]; linarith
    rw [hb, decodeTemperature_eq]
    obtain ⟨ha, hb6, hb7⟩ := hbyte N 1 0 hN63 (by omega) (by omega)
    rw [ha, hb6, hb7]
    norm_num
    rw [hNQ, hflo, hqk]


/-- The encoded temperature stays a byte when the magnitude is at most
63.5. -/
lemma encodeTemperature_lt (q : ℚ) (hle : |q| ≤ 127/2) : encodeTemperature q < 256 := by
  have hm : ⌊|q|⌋ < 64 := Int.floor_lt.mpr (by push_cast; linarith)
  have hm0 : 0 ≤ ⌊|q|⌋ := Int.floor_nonneg.mpr (abs_nonneg q)
  unfold encodeTemperature
  split <;> split <;> omega

/-- A nonzero half-integral temperature never encodes to the zero byte
(so `TEMPERATURE_REQUIRED` round-trips for such values). -/
lemma encodeTemperature_ne_zero (q : ℚ) (hden : (2 * q).den = 1)
    (hle : |q| ≤ 127/2) (hq0 : q ≠ 0) : encodeTemperature q ≠ 0 := by
  intro h0
  have h := temp_roundtrip q hden hle
  rw [h0] at h
  have h00 : decodeTemperature 0 = 0 := by decide
  exact hq0 (by rw [← h, h00])

/-- Reading `n` bytes at the start of the middle segment succeeds and
returns the first `n` bytes of that segment. -/
lemma readBytes_append (pre l post : List Nat) (n : Nat) (h : n ≤ l.length) :
    readBytes (pre ++ l ++ post) pre.length n = some (l.take n) := by
  induction n generalizing pre l with
  | zero => rfl
  | succ k ih =>
    rcases l with _ | ⟨b, l'⟩
    · simp at h
    · rw [readBytes]
      have hget : (pre ++ (b :: l') ++ post).get? pre.length = some b := by
        rw [List.append_assoc, List.get?_eq_getElem?,
            List.getElem?_append_right (le_refl _)]
        simp
      rw [hget]
      have hre : pre ++ (b :: l') ++ post = (pre ++ [b]) ++ l' ++ post := by simp
      have hlen : pre.length + 1 = (pre ++ [b]).length := by simp
      rw [hre, hlen, ih (pre ++ [b]) l' (by simpa using h)]
      simp

lemma dropWhile_of_head_ne {p : Char → Bool} {l : List Char}
    (h : ∀ x, l.head? = some x → ¬ p x = true) : l.dropWhile p = l := by
  rcases l with _ | ⟨c, l'⟩
  · rfl
  · rw [List.dropWhile_cons, if_neg (h c rfl)]

lemma dropWhile_replicate (p : Char → Bool) (k : Nat) (a : Char) (hp : p a = true) :
    (List.replicate k a).dropWhile p = [] := by
  induction k with
  | zero => rfl
  | succ m ih => rw [List.replicate_succ, List.dropWhile_cons, if_pos hp, ih]

lemma dropWhile_replicate_append (p : Char → Bool) (k : Nat) (a : Char)
    (l : List Char) (hp : p a = true) :
    (List.replicate k a ++ l).dropWhile p = l.dropWhile p := by
  induction k with
  | zero => rfl
  | succ m ih =>
    rw [List.replicate_succ, List.cons_append, List.dropWhile_cons, if_pos hp, ih]

/-- Stripping does not touch a string without leading or trailing
spaces, even after right-padding with spaces. -/
lemma pyStrip_append_replicate (cs : List Char) (k : Nat)
    (hh : cs.head? ≠ some ' ') (hl : cs.getLast? ≠ some ' ') :
    pyStrip (cs ++ List.replicate k ' ') = cs := by
  unfold pyStrip
  rcases cs with _ | ⟨c, cs'⟩
  · rw [List.nil_append, dropWhile_replicate _ _ _ (by simp)]
    rfl
  · rw [List.cons_append, List.dropWhile_cons,
        if_neg (show ¬((fun x => decide (x = ' ')) c = true) by simpa using hh)]
    rw [List.reverse_cons, List.reverse_append, List.reverse_replicate,
        List.append_assoc, dropWhile_replicate_append _ _ _ _ (by simp)]
    rw [← List.reverse_cons, dropWhile_of_head_ne (fun x hx hpx => by
      rw [List.head?_reverse] at hx
      simp only [decide_eq_true_eq] at hpx
      exact hl (by rw [hx, hpx]))]
    exact List.reverse_reverse _

/-- The in-range values of one schema row, for the round-trip claim:
integers must be bytes, `*Required` integers nonzero bytes, humidity in
`1..99`, temperatures half-integral with magnitude at most 63.5
(nonzero when `*Required`), text at most the row's length made of
nonzero single-byte characters without leading or trailing spaces.  A
MAC address admits no in-range value: the codec reproduces it as a
formatted hex string, not as the raw byte list that serialization
consumes (the documented round-trip exception proved in
`c1_counterexample`). -/
def inRangeVal (e : SchemaEntry) (v : PyValue) : Prop :=
  match e.vtype, v with
  | some .integer, .int n => n < 256
  | some .integerRequired, .int n => 0 < n ∧ n < 256
  | some .humidity, .int n => 0 < n ∧ n < 100
  | some .temperature, .temp q => (2 * q).den = 1 ∧ |q| ≤ 127/2
  | some .temperatureRequired, .temp q => (2 * q).den = 1 ∧ |q| ≤ 127/2 ∧ q ≠ 0
  | some .text, .str cs =>
    (match e.textLen with
     | some tl => cs.length ≤ tl
     | none => False)
      ∧ (∀ c ∈ cs, 0 < c.toNat ∧ c.toNat < 256)
      ∧ cs.head? ≠ some ' ' ∧ cs.getLast? ≠ some ' '
  | _, _ => False

/-- A `data` dict that populates every named row of a schema, in schema
order, with in-range values.  Any Python dict holding exactly the
schema's fields is observationally equal (under `dict.get`) to such a
canonically ordered one. -/
inductive Populated : List SchemaEntry → Fields → Prop
  | nil : Populated [] []
  | reserved {s : List SchemaEntry} {d : Fields} :
      Populated s d → Populated (reservedEntry :: s) d
  | field {e : SchemaEntry} {nm : String} {v : PyValue} {s : List SchemaEntry}
      {d : Fields} : e.name = some nm → inRangeVal e v →
      Populated s d → Populated (e :: s) ((nm, v) :: d)

/-- The names of the named rows of a schema. -/
def schemaNames (s : List SchemaEntry) : List String := s.filterMap (fun e => e.name)

/-- The byte width of one schema row on the wire. -/
def entryWidth (e : SchemaEntry) : Nat :=
  match e.vtype with
  | none => 1
  | some .macAddress => 6
  | some .text => (match e.textLen with | some tl => tl + 1 | none => 0)
  | some _ => 1

/-- The byte width of a schema's field section. -/
def schemaWidth (s : List SchemaEntry) : Nat := (s.map entryWidth).sum

/-- Looking a name up past an entry with a different key. -/
lemma lookup_cons_ne {nm nm' : String} {v : PyValue} {d : Fields} (h : nm' ≠ nm) :
    List.lookup nm' ((nm, v) :: d) = List.lookup nm' d := by
  rw [List.lookup_cons, beq_false_of_ne h]

/-- A populated schema always mentions only names of the schema, so a
field for a name foreign to the schema is invisible to the
serializer. -/
lemma serializeFields_cons_ne (s : List SchemaEntry) (nm : String) (v : PyValue)
    (d : Fields) (hnm : ∀ e ∈ s, e.name ≠ some nm) :
    serializeFields s ((nm, v) :: d) = serializeFields s d := by
  induction s with
  | nil => rfl
  | cons e rest ih =>
    rw [serializeFields, serializeFields]
    have hfe : serializeField ((nm, v) :: d) e = serializeField d e := by
      unfold serializeField
      rcases he : e.name with _ | nm'
      · rfl
      · have hne : nm' ≠ nm := by
          intro hcon
          exact hnm e (by simp) (by rw [he, hcon])
        simp only [Option.bind_some, Option.some_bind]
        rw [lookup_cons_ne hne]
    rw [hfe, ih (fun e' he' => hnm e' (by simp [he']))]

/-- When the text fits, the serialized TEXT bytes are the character
codes padded with zeros to the fixed width. -/
lemma textBytes_eq (tl : Nat) (cs : List Char) (h : cs.length ≤ tl) :
    textBytes tl cs = cs.map Char.toNat ++ List.replicate (tl + 1 - cs.length) 0 := by
  unfold textBytes
  rw [List.take_of_length_le (by simp; omega)]

lemma textBytes_length (tl : Nat) (cs : List Char) (h : cs.length ≤ tl) :
    (textBytes tl cs).length = tl + 1 := by
  rw [textBytes_eq tl cs h]
  simp
  omega

/-- On a populated dict with schema-distinct names, the serializer's
field loop succeeds, produces exactly the schema width, and produces
only bytes. -/
lemma ser_fields_spec {s : List SchemaEntry} {d : Fields} (hpop : Populated s d)
    (hnd : (schemaNames s).Nodup) :
    ∃ bs, serializeFields s d = some bs ∧ bs.length = schemaWidth s ∧
      ∀ b ∈ bs, b < 256 := by
  induction hpop with
  | nil => exact ⟨[], rfl, rfl, by simp⟩
  | @reserved s' d' hp ih =>
    have hnames : schemaNames (reservedEntry :: s') = schemaNames s' := by
      simp [schemaNames, reservedEntry]
    rw [hnames] at hnd
    obtain ⟨bs, h1, h2, h3⟩ := ih hnd
    refine ⟨0 :: bs, ?_, ?_, ?_⟩
    · rw [serializeFields, show serializeField d' reservedEntry = some [0] from rfl, h1]
      rfl
    · simp [schemaWidth, entryWidth, reservedEntry] at h2 ⊢
      omega
    · intro b hb
      rcases hb with _ | hb
      · omega
      · exact h3 b (by assumption)
  | @field e nm v s' d' he hir hp ih =>
    obtain ⟨ename, evt, etl⟩ := e
    dsimp only [] at he
    subst he
    have hnames : schemaNames (⟨some nm, evt, etl⟩ :: s') = nm :: schemaNames s' := by
      simp [schemaNames]
    rw [hnames, List.nodup_cons] at hnd
    obtain ⟨hnotin, hnd'⟩ := hnd
    obtain ⟨bs, h1, h2, h3⟩ := ih hnd'
    have htail : serializeFields s' ((nm, v) :: d') = serializeFields s' d' := by
      apply serializeFields_cons_ne
      intro e' he' hcon
      exact hnotin (by
        unfold schemaNames
        exact List.mem_filterMap.mpr ⟨e', he', hcon⟩)
    have hlook : List.lookup nm ((nm, v) :: d') = some v := by
      rw [List.lookup_cons, beq_self_eq_true]
    rcases evt with _ | vt
    · exact absurd hir (by simp [inRangeVal])
    rcases vt <;> rcases v with _ | n | q | cs | mbs <;>
      simp only [inRangeVal] at hir
    -- integer
    · refine ⟨n :: bs, ?_, ?_, ?_⟩
      · rw [serializeFields]
        unfold serializeField
        simp only [Option.some_bind, hlook]
        rw [htail, h1]
        rfl
      · simp [schemaWidth, entryWidth] at h2 ⊢
        omega
      · intro b hb
        rcases hb with _ | hb
        · omega
        · exact h3 b (by assumption)
    -- integerRequired
    · refine ⟨n :: bs, ?_, ?_, ?_⟩
      · rw [serializeFields]
        unfold serializeField
        simp only [Option.some_bind, hlook]
        rw [htail, h1]
        rfl
      · simp [schemaWidth, entryWidth] at h2 ⊢
        omega
      · intro b hb
        rcases hb with _ | hb
        · omega
        · exact h3 b (by assumption)
    -- temperature
    · refine ⟨encodeTemperature q :: bs, ?_, ?_, ?_⟩
      · rw [serializeFields]
        unfold serializeField
        simp only [Option.some_bind, hlook]
        rw [htail, h1]
        rfl
      · simp [schemaWidth, entryWidth] at h2 ⊢
        omega
      · intro b hb
        rcases hb with _ | hb
        · exact encodeTemperature_lt q hir.2
        · exact h3 b (by assumption)
    -- temperatureRequired
    · refine ⟨encodeTemperature q :: bs, ?_, ?_, ?_⟩
      · rw [serializeFields]
        unfold serializeField
        simp only [Option.some_bind, hlook]
        rw [htail, h1]
        rfl
      · simp [schemaWidth, entryWidth] at h2 ⊢
        omega
      · intro b hb
        rcases hb with _ | hb
        · exact encodeTemperature_lt q hir.2.1
        · exact h3 b (by assumption)
    -- humidity
    · refine ⟨n :: bs, ?_, ?_, ?_⟩
      · rw [serializeFields]
        unfold serializeField
        simp only [Option.some_bind, hlook]
        rw [htail, h1]
        rfl
      · simp [schemaWidth, entryWidth] at h2 ⊢
        omega
      · intro b hb
        rcases hb with _ | hb
        · omega
        · exact h3 b (by assumption)
    -- text
    · rcases etl with _ | tl
      · exact absurd hir.1 (by simp)
      refine ⟨textBytes tl cs ++ bs, ?_, ?_, ?_⟩
      · rw [serializeFields]
        unfold serializeField
        simp only [Option.some_bind, hlook]
        rw [htail, h1]
      · have hcl : cs.length ≤ tl := hir.1
        simp [schemaWidth, entryWidth, textBytes_length tl cs hcl] at h2 ⊢
        omega
      · intro b hb
        rw [List.mem_append] at hb
        rcases hb with hb | hb
        · rw [textBytes_eq tl cs hir.1, List.mem_append] at hb
          rcases hb with hb | hb
          · obtain ⟨c, hc, rfl⟩ := List.mem_map.mp hb
            exact (hir.2.1 c hc).2
          · rw [List.eq_of_mem_replicate hb]
            omega
        · exact h3 b hb

/-- The byte right after `pre` in `pre ++ (b :: l) ++ post`. -/
lemma get?_append_cons (pre : List Nat) (b : Nat) (l post : List Nat) :
    (pre ++ (b :: l) ++ post).get? pre.length = some b := by
  rw [List.append_assoc, List.get?_eq_getElem?, List.getElem?_append_right (le_refl _)]
  simp

/-- Parsing back the serialized field section of a populated schema
with pairwise-distinct field names recovers exactly the populated
dict, consuming exactly the field bytes.  `pre` is the
already-consumed wire prefix (envelope and sub-header), `post`
whatever follows (the CRC byte). -/
lemma fields_roundtrip {s : List SchemaEntry} {d : Fields} (hpop : Populated s d) :
    ∀ (hnd : (schemaNames s).Nodup) (bs : List Nat), serializeFields s d = some bs →
      ∀ (pre post : List Nat) (acc : Fields) (finalIdx : Nat),
        finalIdx + 1 = pre.length + bs.length →
        parseFieldsRun (pre ++ bs ++ post) finalIdx s pre.length acc
          = .ok (acc ++ d, pre.length + bs.length) := by
  induction hpop with
  | nil =>
    intro _ bs hser pre post acc finalIdx hfi
    obtain rfl : ([] : List Nat) = bs := by injection hser
    simp only [List.length_nil, Nat.add_zero] at hfi
    rw [parseFieldsRun_stop (by omega)]
    simp
  | @reserved s' d' hp ih =>
    intro hnd bs hser pre post acc finalIdx hfi
    have hnames : schemaNames (reservedEntry :: s') = schemaNames s' := by
      simp [schemaNames, reservedEntry]
    rw [hnames] at hnd
    rw [serializeFields, show serializeField d' reservedEntry = some [0] from rfl] at hser
    rcases hrest : serializeFields s' d' with _ | bs'
    · rw [hrest] at hser; exact absurd hser (by simp)
    rw [hrest] at hser
    obtain rfl : 0 :: bs' = bs := by injection hser
    simp only [List.length_cons] at hfi
    rw [parseFieldsRun_step (by omega)
      (show fieldsStep (pre ++ (0 :: bs') ++ post) (reservedEntry :: s') pre.length acc
        = some (s', pre.length + 1, acc) from rfl)]
    have hdata : pre ++ (0 :: bs') ++ post = (pre ++ [0]) ++ bs' ++ post := by simp
    have hplen : pre.length + 1 = (pre ++ [0]).length := by simp
    rw [hdata, hplen, ih hnd bs' hrest (pre ++ [0]) post acc finalIdx (by simp; omega)]
    have hlen2 : (pre ++ [0]).length + bs'.length = pre.length + (0 :: bs').length := by
      simp
      omega
    rw [hlen2]
  | @field e nm v s' d' he hir hp ih =>
    intro hnd bs hser pre post acc finalIdx hfi
    obtain ⟨ename, evt, etl⟩ := e
    dsimp only [] at he
    subst he
    have hnames : schemaNames (⟨some nm, evt, etl⟩ :: s') = nm :: schemaNames s' := by
      simp [schemaNames]
    rw [hnames, List.nodup_cons] at hnd
    obtain ⟨hnotin, hnd'⟩ := hnd
    have hforeign : ∀ e' ∈ s', e'.name ≠ some nm := fun e' he' hcon =>
      hnotin (List.mem_filterMap.mpr ⟨e', he', hcon⟩)
    rcases evt with _ | vt
    · exact absurd hir (by simp [inRangeVal])
    have hlook : List.lookup nm ((nm, v) :: d') = some v := by
      rw [List.lookup_cons, beq_self_eq_true]
    rcases vt <;> rcases v with _ | n | q | cs | mbs <;>
      simp only [inRangeVal] at hir
  -- integer
    · rw [serializeFields] at hser
      unfold serializeField at hser
      simp only [Option.some_bind, hlook] at hser
      rcases hrest : serializeFields s' ((nm, PyValue.int n) :: d') with _ | bs'
      · rw [hrest] at hser; exact absurd hser (by simp)
      rw [hrest] at hser
      obtain rfl : n :: bs' = bs := by injection hser
      simp only [List.length_cons] at hfi
      have hget := get?_append_cons pre n bs' post
      rw [parseFieldsRun_step (by omega)
        (show fieldsStep (pre ++ (n :: bs') ++ post)
            (⟨some nm, some VType.integer, etl⟩ :: s') pre.length acc
          = some (s', pre.length + 1, acc ++ [(nm, PyValue.int n)]) from by
            unfold fieldsStep
            rw [hget])]
      have hrest' : serializeFields s' d' = some bs' := by
        rw [← serializeFields_cons_ne s' nm (PyValue.int n) d' hforeign]
        exact hrest
      have hdata : pre ++ (n :: bs') ++ post = (pre ++ [n]) ++ bs' ++ post := by simp
      have hplen : pre.length + 1 = (pre ++ [n]).length := by simp
      rw [hdata, hplen,
        ih hnd' bs' hrest' (pre ++ [n]) post (acc ++ [(nm, PyValue.int n)]) finalIdx
          (by simp; omega)]
      have hlen2 : (pre ++ [n]).length + bs'.length = pre.length + (n :: bs').length := by
        simp
        omega
      rw [hlen2]
      simp
  -- integerRequired
    · rw [serializeFields] at hser
      unfold serializeField at hser
      simp only [Option.some_bind, hlook] at hser
      rcases hrest : serializeFields s' ((nm, PyValue.int n) :: d') with _ | bs'
      · rw [hrest] at hser; exact absurd hser (by simp)
      rw [hrest] at hser
      obtain rfl : n :: bs' = bs := by injection hser
      simp only [List.length_cons] at hfi
      have hget := get?_append_cons pre n bs' post
      rw [parseFieldsRun_step (by omega)
        (show fieldsStep (pre ++ (n :: bs') ++ post)
            (⟨some nm, some VType.integerRequired, etl⟩ :: s') pre.length acc
          = some (s', pre.length + 1, acc ++ [(nm, PyValue.int n)]) from by
            unfold fieldsStep
            rw [hget]
            dsimp only []
            rw [if_pos (show n ≠ 0 by omega)])]
      have hrest' : serializeFields s' d' = some bs' := by
        rw [← serializeFields_cons_ne s' nm (PyValue.int n) d' hforeign]
        exact hrest
      have hdata : pre ++ (n :: bs') ++ post = (pre ++ [n]) ++ bs' ++ post := by simp
      have hplen : pre.length + 1 = (pre ++ [n]).length := by simp
      rw [hdata, hplen,
        ih hnd' bs' hrest' (pre ++ [n]) post (acc ++ [(nm, PyValue.int n)]) finalIdx
          (by simp; omega)]
      have hlen2 : (pre ++ [n]).length + bs'.length = pre.length + (n :: bs').length := by
        simp
        omega
      rw [hlen2]
      simp
  -- temperature
    · rw [serializeFields] at hser
      unfold serializeField at hser
      simp only [Option.some_bind, hlook] at hser
      rcases hrest : serializeFields s' ((nm, PyValue.temp q) :: d') with _ | bs'
      · rw [hrest] at hser; exact absurd hser (by simp)
      rw [hrest] at hser
      obtain rfl : encodeTemperature q :: bs' = bs := by injection hser
      simp only [List.length_cons] at hfi
      have hget := get?_append_cons pre (encodeTemperature q) bs' post
      rw [parseFieldsRun_step (by omega)
        (show fieldsStep (pre ++ (encodeTemperature q :: bs') ++ post)
            (⟨some nm, some VType.temperature, etl⟩ :: s') pre.length acc
          = some (s', pre.length + 1, acc ++ [(nm, PyValue.temp q)]) from by
            unfold fieldsStep
            rw [hget]
            dsimp only []
            rw [temp_roundtrip q hir.1 hir.2])]
      have hrest' : serializeFields s' d' = some bs' := by
        rw [← serializeFields_cons_ne s' nm (PyValue.temp q) d' hforeign]
        exact hrest
      have hdata : pre ++ (encodeTemperature q :: bs') ++ post
          = (pre ++ [encodeTemperature q]) ++ bs' ++ post := by simp
      have hplen : pre.length + 1 = (pre ++ [encodeTemperature q]).length := by simp
      rw [hdata, hplen,
        ih hnd' bs' hrest' (pre ++ [encodeTemperature q]) post
          (acc ++ [(nm, PyValue.temp q)]) finalIdx (by simp; omega)]
      have hlen2 : (pre ++ [encodeTemperature q]).length + bs'.length
          = pre.length + (encodeTemperature q :: bs').length := by
        simp
        omega
      rw [hlen2]
      simp
  -- temperatureRequired
    · rw [serializeFields] at hser
      unfold serializeField at hser
      simp only [Option.some_bind, hlook] at hser
      rcases hrest : serializeFields s' ((nm, PyValue.temp q) :: d') with _ | bs'
      · rw [hrest] at hser; exact absurd hser (by simp)
      rw [hrest] at hser
      obtain rfl : encodeTemperature q :: bs' = bs := by injection hser
      simp only [List.length_cons] at hfi
      have hget := get?_append_cons pre (encodeTemperature q) bs' post
      rw [parseFieldsRun_step (by omega)
        (show fieldsStep (pre ++ (encodeTemperature q :: bs') ++ post)
            (⟨some nm, some VType.temperatureRequired, etl⟩ :: s') pre.length acc
          = some (s', pre.length + 1, acc ++ [(nm, PyValue.temp q)]) from by
            unfold fieldsStep
            rw [hget]
            dsimp only []
            rw [if_pos (encodeTemperature_ne_zero q hir.1 hir.2.1 hir.2.2),
              temp_roundtrip q hir.1 hir.2.1])]
      have hrest' : serializeFields s' d' = some bs' := by
        rw [← serializeFields_cons_ne s' nm (PyValue.temp q) d' hforeign]
        exact hrest
      have hdata : pre ++ (encodeTemperature q :: bs') ++ post
          = (pre ++ [encodeTemperature q]) ++ bs' ++ post := by simp
      have hplen : pre.length + 1 = (pre ++ [encodeTemperature q]).length := by simp
      rw [hdata, hplen,
        ih hnd' bs' hrest' (pre ++ [encodeTemperature q]) post
          (acc ++ [(nm, PyValue.temp q)]) finalIdx (by simp; omega)]
      have hlen2 : (pre ++ [encodeTemperature q]).length + bs'.length
          = pre.length + (encodeTemperature q :: bs').length := by
        simp
        omega
      rw [hlen2]
      simp
  -- humidity
    · rw [serializeFields] at hser
      unfold serializeField at hser
      simp only [Option.some_bind, hlook] at hser
      rcases hrest : serializeFields s' ((nm, PyValue.int n) :: d') with _ | bs'
      · rw [hrest] at hser; exact absurd hser (by simp)
      rw [hrest] at hser
      obtain rfl : n :: bs' = bs := by injection hser
      simp only [List.length_cons] at hfi
      have hget := get?_append_cons pre n bs' post
      rw [parseFieldsRun_step (by omega)
        (show fieldsStep (pre ++ (n :: bs') ++ post)
            (⟨some nm, some VType.humidity, etl⟩ :: s') pre.length acc
          = some (s', pre.length + 1, acc ++ [(nm, PyValue.int n)]) from by
            unfold fieldsStep
            rw [hget]
            dsimp only []
            rw [show decodeHumidity n = PyValue.int n from by
              unfold decodeHumidity
              rw [if_neg (by omega)]])]
      have hrest' : serializeFields s' d' = some bs' := by
        rw [← serializeFields_cons_ne s' nm (PyValue.int n) d' hforeign]
        exact hrest
      have hdata : pre ++ (n :: bs') ++ post = (pre ++ [n]) ++ bs' ++ post := by simp
      have hplen : pre.length + 1 = (pre ++ [n]).length := by simp
      rw [hdata, hplen,
        ih hnd' bs' hrest' (pre ++ [n]) post (acc ++ [(nm, PyValue.int n)]) finalIdx
          (by simp; omega)]
      have hlen2 : (pre ++ [n]).length + bs'.length = pre.length + (n :: bs').length := by
        simp
        omega
      rw [hlen2]
      simp
  -- text
    · rcases etl with _ | tl
      · exact absurd hir.1 (by simp)
      have hcl : cs.length ≤ tl := hir.1
      rw [serializeFields] at hser
      unfold serializeField at hser
      simp only [Option.some_bind, hlook] at hser
      rcases hrest : serializeFields s' ((nm, PyValue.str cs) :: d') with _ | bs'
      · rw [hrest] at hser; exact absurd hser (by simp)
      rw [hrest] at hser
      obtain rfl : textBytes tl cs ++ bs' = bs := by injection hser
      have htblen : (textBytes tl cs).length = tl + 1 := textBytes_length tl cs hcl
      have hfi' : finalIdx + 1 = pre.length + (tl + 1) + bs'.length := by
        simp [htblen] at hfi
        omega
      have hread : readBytes (pre ++ (textBytes tl cs ++ bs') ++ post) pre.length tl
          = some (cs.map Char.toNat ++ List.replicate (tl - cs.length) 0) := by
        rw [readBytes_append pre (textBytes tl cs ++ bs') post tl (by simp [htblen]; omega)]
        congr 1
        rw [textBytes_eq tl cs hcl,
          show tl + 1 - cs.length = (tl - cs.length) + 1 from by omega,
          List.replicate_succ', ← List.append_assoc, List.append_assoc _ _ bs']
        exact List.take_left' (by
          simp only [List.length_append, List.length_map, List.length_replicate]
          omega)
      have hget0 : ∃ b0, (pre ++ (textBytes tl cs ++ bs') ++ post).get? pre.length
          = some b0 := by
        rw [List.append_assoc, List.get?_eq_getElem?,
          List.getElem?_append_right (le_refl _)]
        simp only [Nat.sub_self]
        have : 0 < (textBytes tl cs ++ bs' ++ post).length := by simp [htblen]
        exact ⟨_, List.getElem?_eq_getElem this⟩
      obtain ⟨b0, hb0⟩ := hget0
      have hmapstrip : pyStrip (((cs.map Char.toNat
          ++ List.replicate (tl - cs.length) 0)).map byteChar) = cs := by
        rw [List.map_append, List.map_map, List.map_replicate]
        have hmapcs : cs.map (byteChar ∘ Char.toNat) = cs := by
          rw [List.map_congr_left (fun c hc => by
            have hc0 := (hir.2.1 c hc).1
            show byteChar c.toNat = c
            unfold byteChar
            rw [if_neg (by omega), Char.ofNat_toNat])]
          exact List.map_id cs
        rw [hmapcs, show byteChar 0 = ' ' from rfl]
        exact pyStrip_append_replicate cs _ hir.2.2.1 hir.2.2.2
      rw [parseFieldsRun_step (by omega)
        (show fieldsStep (pre ++ (textBytes tl cs ++ bs') ++ post)
            (⟨some nm, some VType.text, some tl⟩ :: s') pre.length acc
          = some (s', pre.length + tl + 1, acc ++ [(nm, PyValue.str cs)]) from by
            unfold fieldsStep
            rw [hb0]
            dsimp only [Option.getD]
            rw [hread]
            dsimp only []
            rw [hmapstrip])]
      have hrest' : serializeFields s' d' = some bs' := by
        rw [← serializeFields_cons_ne s' nm (PyValue.str cs) d' hforeign]
        exact hrest
      have hdata : pre ++ (textBytes tl cs ++ bs') ++ post
          = (pre ++ textBytes tl cs) ++ bs' ++ post := by simp
      have hplen : pre.length + tl + 1 = (pre ++ textBytes tl cs).length := by
        simp [htblen]
        omega
      rw [hdata, hplen,
        ih hnd' bs' hrest' (pre ++ textBytes tl cs) post
          (acc ++ [(nm, PyValue.str cs)]) finalIdx (by simp [htblen]; omega)]
      have hlen2 : (pre ++ textBytes tl cs).length + bs'.length
          = pre.length + (textBytes tl cs ++ bs').length := by
        simp
        omega
      rw [hlen2]
      simp

/-- `Action(int(a))` recovers `a`. -/
lemma Action.ofNat?_toNat_action (a : Action) : Action.ofNat? a.toNat = some a := by
  cases a <;> rfl

/-- `FunctionalDomain(int(d))` recovers `d`. -/
lemma FunctionalDomain.ofNat?_toNat_domain (d : FunctionalDomain) :
    FunctionalDomain.ofNat? d.toNat = some d := by
  cases d <;> rfl

lemma Action.toNat_lt_action (a : Action) : a.toNat < 256 := by cases a <;> decide

lemma FunctionalDomain.toNat_lt_domain (d : FunctionalDomain) : d.toNat < 256 := by
  cases d <;> decide

/-- `finishFrame` on an all-bytes payload shorter than 256: the high
length byte is zero, the low byte the payload length, and the CRC is
appended. -/
lemma finishFrame_small (seq : Nat) (payload : List Nat) (hp : payload.length < 256)
    (hseq : seq < 256) (hbytes : ∀ b ∈ payload, b < 256) :
    finishFrame seq payload
      = some ((([1, seq, 0, payload.length] ++ payload))
          ++ [crc8 ([1, seq, 0, payload.length] ++ payload)]) := by
  unfold finishFrame encodeIntValue
  have hhi : (payload.length >>> 8) &&& 255 = 0 := by
    rw [Nat.shiftRight_eq_div_pow, Nat.div_eq_of_lt (by omega)]
    rfl
  have hlo : payload.length &&& 255 = payload.length := by
    have h := Nat.and_pow_two_sub_one_eq_mod payload.length 8
    norm_num at h
    rw [h, Nat.mod_eq_of_lt hp]
  dsimp only []
  rw [hhi, hlo, if_pos ?hall]
  case hall =>
    rw [List.all_eq_true]
    intro x hx
    simp at hx
    rcases hx with rfl | rfl | rfl | rfl | h | rfl
    · decide
    · exact decide_eq_true hseq
    · decide
    · exact decide_eq_true hp
    · exact decide_eq_true (hbytes x h)
    · exact decide_eq_true (crc8_lt _)

/-- Serialize-then-parse round trip for one schema-covered message. -/
lemma serialize_parse_roundtrip (act : Action)
    (hact : act = .WRITE ∨ act = .READ_RESPONSE ∨ act = .COS)
    (dom : FunctionalDomain) (attr : Nat) (s : List SchemaEntry) (d : Fields)
    (rev seq cnt : Nat)
    (hmap : MAPPING act dom attr = some s)
    (hpop : Populated s d)
    (hnd : (schemaNames s).Nodup)
    (hw : schemaWidth s + 3 < 256)
    (hattr : attr < 256) (hseq : seq < 256) :
    ∃ bs, serializePacket (.pkt act dom attr rev seq cnt d none) = some bs ∧
      parse bs = .ok [.pkt act dom attr 1 seq (schemaWidth s + 3) d none] := by
  obtain ⟨fb, hfb, hfblen, hfbbytes⟩ := ser_fields_spec hpop hnd
  have hL : fb.length + 3 < 256 := by omega
  have hnotnack : ¬ act = Action.NACK := by rcases hact with rfl | rfl | rfl <;> simp
  -- the payload and the serialized frame
  have hplen : ([act.toNat, dom.toNat, attr] ++ fb).length = fb.length + 3 := by
    simp
  have hser : serializePacket (.pkt act dom attr rev seq cnt d none)
      = finishFrame seq ([act.toNat, dom.toNat, attr] ++ fb) := by
    unfold serializePacket
    dsimp only []
    rw [if_pos hact, hmap]
    dsimp only []
    rw [hfb]
  have hpbytes : ∀ b ∈ [act.toNat, dom.toNat, attr] ++ fb, b < 256 := by
    intro b hb
    simp at hb
    rcases hb with rfl | rfl | rfl | hb
    · exact Action.toNat_lt_action act
    · exact FunctionalDomain.toNat_lt_domain dom
    · exact hattr
    · exact hfbbytes b hb
  rw [finishFrame_small seq _ (by omega) hseq hpbytes] at hser
  rw [hplen] at hser
  rw [← hfblen]
  have hpre : ([1, seq, 0, fb.length + 3] ++ ([act.toNat, dom.toNat, attr] ++ fb))
      = ([1, seq, 0, fb.length + 3, act.toNat, dom.toNat, attr] ++ fb) := by simp
  rw [hpre] at hser
  refine ⟨_, hser, ?_⟩
  set pre7 : List Nat := [1, seq, 0, fb.length + 3, act.toNat, dom.toNat, attr] with hpre7
  set crcB : Nat := crc8 (pre7 ++ fb) with hcrcB
  set dt : List Nat := (pre7 ++ fb) ++ [crcB] with hdt
  have h7 : (pre7 ++ fb).length = 7 + fb.length := by
    rw [hpre7]
    simp
    omega
  have hlen : dt.length = fb.length + 8 := by
    rw [hdt, List.length_append, h7]
    simp
    omega
  have hrun0 := fields_roundtrip hpop hnd fb hfb pre7 [crcB] []
    (0 + (fb.length + 3) + 3) (by rw [hpre7]; simp; omega)
  have hrun : parseFieldsRun dt (0 + (fb.length + 3) + 3) s (0 + 7) []
      = .ok (d, 7 + fb.length) := by
    rw [hdt]
    simpa [hpre7] using hrun0
  have hcrcget : dt.get? (7 + fb.length) = some crcB := by
    rw [hdt, List.get?_eq_getElem?,
      show (7 + fb.length) = (pre7 ++ fb).length from h7.symm,
      List.getElem?_append_right (le_refl _)]
    simp
  have hslice : (dt.drop 0).take (7 + fb.length - 0) = pre7 ++ fb := by
    rw [hdt, List.drop_zero]
    exact List.take_left' (by omega)
  have hfs : frameStep dt 0
      = .known (.pkt act dom attr 1 seq (fb.length + 3) d none) true
          (7 + fb.length + 1) := by
    unfold frameStep
    rw [show dt.get? 0 = some 1 from rfl,
        show dt.get? (0+1) = some seq from rfl,
        show dt.get? (0+2) = some 0 from rfl,
        show dt.get? (0+3) = some (fb.length + 3) from rfl,
        show dt.get? (0+4) = some act.toNat from rfl,
        show dt.get? (0+5) = some dom.toNat from rfl,
        show dt.get? (0+6) = some attr from rfl]
    dsimp only []
    rw [show decodeCount 0 (fb.length + 3) = fb.length + 3 from by
      unfold decodeCount
      rw [Nat.zero_shiftLeft]
      exact Nat.zero_or _]
    rw [Action.ofNat?_toNat_action]
    dsimp only []
    rw [FunctionalDomain.ofNat?_toNat_domain]
    dsimp only []
    rw [if_neg hnotnack, hmap]
    dsimp only []
    rw [hrun]
    dsimp only []
    rw [hcrcget]
    dsimp only []
    rw [hslice, ← hcrcB, beq_self_eq_true]
  show parseFrom dt 0 = _
  rw [parseFrom_known (by omega) hfs, parseFrom_end (by omega)]
  rfl

/-- One-frame characterization: unknown action, unknown domain, or
(non-NACK) schema miss makes `frameStep` a skip of `count + 5`. -/
lemma frameStep_eq_skip {data : List Nat} {i : Nat} {rev sq b2 b3 b4 b5 b6 : Nat}
    (h0 : data.get? i = some rev) (h1 : data.get? (i+1) = some sq)
    (h2 : data.get? (i+2) = some b2) (h3 : data.get? (i+3) = some b3)
    (h4 : data.get? (i+4) = some b4) (h5 : data.get? (i+5) = some b5)
    (h6 : data.get? (i+6) = some b6)
    (hskip : Action.ofNat? b4 = none ∨
      (∃ act, Action.ofNat? b4 = some act ∧ FunctionalDomain.ofNat? b5 = none) ∨
      (∃ act dom, Action.ofNat? b4 = some act ∧ FunctionalDomain.ofNat? b5 = some dom ∧
        ¬ act = Action.NACK ∧ MAPPING act dom b6 = none)) :
    frameStep data i = .skip (i + decodeCount b2 b3 + 5) := by
  unfold frameStep
  rw [h0, h1, h2, h3, h4, h5, h6]
  dsimp only []
  rcases hskip with ha | ⟨act, ha, hd⟩ | ⟨act, dom, ha, hd, hnn, hm⟩
  · rw [ha]
  · rw [ha]
    dsimp only []
    rw [hd]
  · rw [ha]
    dsimp only []
    rw [hd]
    dsimp only []
    rw [if_neg hnn, hm]

/-- One-frame characterization: a NACK kind byte yields a `NackPacket`
carrying the byte after the kind, before any schema or CRC check. -/
lemma frameStep_eq_nack {data : List Nat} {i : Nat} {rev sq b2 b3 b4 b5 b6 : Nat}
    {dom : FunctionalDomain}
    (h0 : data.get? i = some rev) (h1 : data.get? (i+1) = some sq)
    (h2 : data.get? (i+2) = some b2) (h3 : data.get? (i+3) = some b3)
    (h4 : data.get? (i+4) = some b4) (h5 : data.get? (i+5) = some b5)
    (h6 : data.get? (i+6) = some b6)
    (ha : Action.ofNat? b4 = some Action.NACK)
    (hd : FunctionalDomain.ofNat? b5 = some dom) :
    frameStep data i = .nackMsg b5 (i + decodeCount b2 b3 + 5) := by
  unfold frameStep
  rw [h0, h1, h2, h3, h4, h5, h6]
  dsimp only []
  rw [ha]
  dsimp only []
  rw [hd]
  dsimp only []
  rw [if_pos rfl]

/-- One-frame characterization: a schema-recognized frame runs the
field loop, reads the trailing CRC byte, and carries the verification
outcome. -/
lemma frameStep_eq_known {data : List Nat} {i : Nat} {rev sq b2 b3 b4 b5 b6 : Nat}
    {act : Action} {dom : FunctionalDomain} {schema : List SchemaEntry}
    {flds : Fields} {dIdx crcByte : Nat}
    (h0 : data.get? i = some rev) (h1 : data.get? (i+1) = some sq)
    (h2 : data.get? (i+2) = some b2) (h3 : data.get? (i+3) = some b3)
    (h4 : data.get? (i+4) = some b4) (h5 : data.get? (i+5) = some b5)
    (h6 : data.get? (i+6) = some b6)
    (ha : Action.ofNat? b4 = some act) (hnn : ¬ act = Action.NACK)
    (hd : FunctionalDomain.ofNat? b5 = some dom)
    (hm : MAPPING act dom b6 = some schema)
    (hrun : parseFieldsRun data (i + decodeCount b2 b3 + 3) schema (i + 7) []
      = .ok (flds, dIdx))
    (hcrc : data.get? dIdx = some crcByte) :
    frameStep data i
      = .known (.pkt act dom b6 rev sq (decodeCount b2 b3) flds none)
          (crc8 ((data.drop i).take (dIdx - i)) == crcByte) (dIdx + 1) := by
  unfold frameStep
  rw [h0, h1, h2, h3, h4, h5, h6]
  dsimp only []
  rw [ha]
  dsimp only []
  rw [hd]
  dsimp only []
  rw [if_neg hnn, hm]
  dsimp only []
  rw [hrun]
  dsimp only []
  rw [hcrc]

/-- A position with a successful read is inside the buffer. -/
lemma lt_of_get?_eq_some {data : List Nat} {i b : Nat}
    (h : data.get? i = some b) : i < data.length := by
  rw [List.get?_eq_getElem?] at h
  exact (List.getElem?_eq_some.mp h).1

end Aprilaire

namespace Aprilaire

set_option maxRecDepth 8000

/-- Claim C2 (corrected): for every schema-recognized NON-NACK frame,
a trailing CRC byte that differs from the CRC-8 checksum of the bytes
from the revision byte through the last field byte makes `parse` drop
the frame (no message is yielded for it) while the scan position still
advances past it.  The claim's inclusion of negative-acknowledgement
frames is false: NACK frames are yielded before any CRC check (see
`c2_counterexample`). -/
theorem c2_crc_mismatch_drops (data : List Nat) (i : Nat)
    (rev sq b2 b3 b4 b5 b6 : Nat) (act : Action) (dom : FunctionalDomain)
    (schema : List SchemaEntry) (flds : Fields) (dIdx crcByte : Nat)
    (h0 : data.get? i = some rev) (h1 : data.get? (i+1) = some sq)
    (h2 : data.get? (i+2) = some b2) (h3 : data.get? (i+3) = some b3)
    (h4 : data.get? (i+4) = some b4) (h5 : data.get? (i+5) = some b5)
    (h6 : data.get? (i+6) = some b6)
    (ha : Action.ofNat? b4 = some act) (hnn : ¬ act = Action.NACK)
    (hd : FunctionalDomain.ofNat? b5 = some dom)
    (hm : MAPPING act dom b6 = some schema)
    (hrun : parseFieldsRun data (i + decodeCount b2 b3 + 3) schema (i + 7) []
      = .ok (flds, dIdx))
    (hcrc : data.get? dIdx = some crcByte)
    (hne : crc8 ((data.drop i).take (dIdx - i)) ≠ crcByte) :
    parseFrom data i = parseFrom data (dIdx + 1) := by
  have hlt : i < data.length := lt_of_get?_eq_some h0
  have hfs := frameStep_eq_known h0 h1 h2 h3 h4 h5 h6 ha hnn hd hm hrun hcrc
  rw [beq_eq_false_iff_ne.mpr hne] at hfs
  rw [parseFrom_known hlt hfs]
  rcases parseFrom data (dIdx + 1) with e | ms <;> rfl

/-- Witness for C2's amended theorem: a STATUS/2 read response whose
trailing byte 0 is not the correct checksum 5 is dropped and the
scan moves past it. -/
theorem c2_crc_mismatch_drops_witness :
    parseFrom [1, 0, 0, 4, 3, 7, 2, 5, 0] 0
      = parseFrom [1, 0, 0, 4, 3, 7, 2, 5, 0] 9 :=
  c2_crc_mismatch_drops [1, 0, 0, 4, 3, 7, 2, 5, 0] 0
    1 0 0 4 3 7 2 Action.READ_RESPONSE FunctionalDomain.STATUS
    [fieldEntry "synced" .integer]
    [("synced", PyValue.int 5)] 8 0
    rfl rfl rfl rfl rfl rfl rfl rfl (by decide) rfl rfl (by decide) rfl (by decide)

/-- Counterexample for claim C2 as stated: a NACK frame whose trailing
byte 0 differs from the checksum 176 of its preceding bytes is still
yielded — NACK frames bypass the CRC check entirely. -/
theorem c2_counterexample :
    parseFrom [1, 0, 0, 2, 6, 1, 0] 0 = .ok [.nack 1 1 0 0]
      ∧ crc8 [1, 0, 0, 2, 6, 1] ≠ 0 := by
  decide

/-- Claim C3 (corrected): a frame whose kind byte is the NACK
enumerant yields exactly one negative-acknowledgement message carrying
the byte that follows the kind byte — regardless of the schema table —
and the session logs it and discards it without forwarding it to the
subscriber callback; BUT only when that following byte is itself a
valid functional-domain enumerant, because `Packet.parse` converts it
with `FunctionalDomain(...)` inside the same `try` before reaching the
NACK branch (see `c3_counterexample`). -/
theorem c3_nack_parse (data : List Nat) (i : Nat) (rev sq b2 b3 b4 b5 b6 : Nat)
    (dom : FunctionalDomain)
    (h0 : data.get? i = some rev) (h1 : data.get? (i+1) = some sq)
    (h2 : data.get? (i+2) = some b2) (h3 : data.get? (i+3) = some b3)
    (h4 : data.get? (i+4) = some b4) (h5 : data.get? (i+5) = some b5)
    (h6 : data.get? (i+6) = some b6)
    (ha : Action.ofNat? b4 = some Action.NACK)
    (hd : FunctionalDomain.ofNat? b5 = some dom) :
    parseFrom data i
        = (parseFrom data (i + decodeCount b2 b3 + 5)).map
            (fun ms => .nack b5 1 0 0 :: ms)
      ∧ handlePacket (.nack b5 1 0 0) = .logNack b5 := by
  have hlt : i < data.length := lt_of_get?_eq_some h0
  exact ⟨parseFrom_nack hlt (frameStep_eq_nack h0 h1 h2 h3 h4 h5 h6 ha hd), rfl⟩

/-- Witness for C3's amended theorem: a NACK frame rejecting attribute
2 yields exactly one `NackPacket(2)`, which the session logs and does
not forward. -/
theorem c3_nack_parse_witness :
    parseFrom [1, 0, 0, 2, 6, 2, 0] 0
        = (parseFrom [1, 0, 0, 2, 6, 2, 0] 7).map (fun ms => .nack 2 1 0 0 :: ms)
      ∧ handlePacket (.nack 2 1 0 0) = .logNack 2 :=
  c3_nack_parse [1, 0, 0, 2, 6, 2, 0] 0 1 0 0 2 6 2 0 FunctionalDomain.CONTROL
    rfl rfl rfl rfl rfl rfl rfl rfl rfl

/-- Counterexample for claim C3 as stated: a NACK frame whose
rejected-attribute byte is 11 — not a functional-domain enumerant —
yields NO message at all (the frame is silently skipped), although the
kind byte 6 is the NACK enumerant. -/
theorem c3_counterexample :
    parseFrom [1, 0, 0, 2, 6, 11, 0] 0 = .ok []
      ∧ Action.ofNat? 6 = some Action.NACK
      ∧ FunctionalDomain.ofNat? 11 = none := by
  decide

/-- Claim C4 (corrected): frames with an unrecognized kind byte, an
unrecognized domain byte, or (for non-NACK kinds) a schema miss are
silently dropped with the scanner advancing exactly `count + 5` bytes,
and scanning past the end of the buffer ends the parse with no further
messages; the claim's "no out-of-range access on any buffer" part is
false — a truncated buffer faults (see `c4_counterexample`). -/
theorem c4_unknown_frame_skip :
    (∀ (data : List Nat) (i rev sq b2 b3 b4 b5 b6 : Nat),
      data.get? i = some rev → data.get? (i+1) = some sq →
      data.get? (i+2) = some b2 → data.get? (i+3) = some b3 →
      data.get? (i+4) = some b4 → data.get? (i+5) = some b5 →
      data.get? (i+6) = some b6 →
      (Action.ofNat? b4 = none ∨
        (∃ act, Action.ofNat? b4 = some act ∧ FunctionalDomain.ofNat? b5 = none) ∨
        (∃ act dom, Action.ofNat? b4 = some act ∧
          FunctionalDomain.ofNat? b5 = some dom ∧ ¬ act = Action.NACK ∧
          MAPPING act dom b6 = none)) →
      parseFrom data i = parseFrom data (i + decodeCount b2 b3 + 5)) ∧
    (∀ (data : List Nat) (i : Nat), data.length ≤ i → parseFrom data i = .ok []) := by
  constructor
  · intro data i rev sq b2 b3 b4 b5 b6 h0 h1 h2 h3 h4 h5 h6 hskip
    exact parseFrom_skip (lt_of_get?_eq_some h0)
      (frameStep_eq_skip h0 h1 h2 h3 h4 h5 h6 hskip)
  · intro data i h
    exact parseFrom_end h

/-- Witness for C4's amended theorem: a frame with the unknown kind
byte 9 is skipped by exactly `count + 5 = 5` bytes, and scanning at
the end of a buffer yields no messages. -/
theorem c4_unknown_frame_skip_witness :
    parseFrom [1, 0, 0, 0, 9, 1, 1] 0 = parseFrom [1, 0, 0, 0, 9, 1, 1] 5
      ∧ parseFrom [1, 2, 3] 3 = .ok [] :=
  ⟨c4_unknown_frame_skip.1 [1, 0, 0, 0, 9, 1, 1] 0 1 0 0 0 9 1 1
      rfl rfl rfl rfl rfl rfl rfl (Or.inl rfl),
   c4_unknown_frame_skip.2 [1, 2, 3] 3 (by decide)⟩

/-- Counterexample for claim C4 as stated: on the truncated one-byte
buffer `[0]` the scanner reads past the end of the buffer — a Python
`IndexError` escapes `Packet.parse` instead of a message list. -/
theorem c4_counterexample : parse [0] = .error () := by decide


/-- A masked byte is a byte. -/
lemma and255_lt (x : Nat) : x &&& 255 < 256 := by
  have h := Nat.and_pow_two_sub_one_eq_mod x 8
  norm_num at h
  rw [h]
  exact Nat.mod_lt _ (by norm_num)

/-- `finishFrame` succeeds on byte-valued payloads of any length, and
its output is envelope, payload and CRC. -/
lemma finishFrame_bytes (seq : Nat) (payload : List Nat)
    (hseq : seq < 256) (hbytes : ∀ b ∈ payload, b < 256) :
    finishFrame seq payload
      = some (([1, seq, (encodeIntValue payload.length).1,
            (encodeIntValue payload.length).2] ++ payload)
          ++ [crc8 ([1, seq, (encodeIntValue payload.length).1,
            (encodeIntValue payload.length).2] ++ payload)]) := by
  unfold finishFrame
  dsimp only []
  rw [if_pos ?hall]
  case hall =>
    rw [List.all_eq_true]
    intro x hx
    simp at hx
    rcases hx with rfl | rfl | rfl | rfl | h | rfl
    · decide
    · exact decide_eq_true hseq
    · exact decide_eq_true (and255_lt _)
    · exact decide_eq_true (and255_lt _)
    · exact decide_eq_true (hbytes x h)
    · exact decide_eq_true (crc8_lt _)

/-- The shape of any successful `finishFrame` output. -/
lemma finishFrame_shape (seq : Nat) (p bs : List Nat)
    (h : finishFrame seq p = some bs) :
    bs = ([1, seq, (encodeIntValue p.length).1, (encodeIntValue p.length).2]
          ++ p)
        ++ [crc8 ([1, seq, (encodeIntValue p.length).1,
            (encodeIntValue p.length).2] ++ p)] := by
  unfold finishFrame at h
  dsimp only [] at h
  split at h
  · exact (Option.some.inj h).symm
  · cases h

/-- Every successful serialization is a `finishFrame` output. -/
lemma serializePacket_shape (m : Msg) (bs : List Nat)
    (h : serializePacket m = some bs) :
    ∃ seq p, finishFrame seq p = some bs := by
  rcases m with ⟨act, dom, attr, rev, seq, cnt, d, raw⟩ | ⟨a, rev, seq, cnt⟩
  · unfold serializePacket at h
    dsimp only [] at h
    rcases hfp : (match raw with
      | some r => some r
      | none =>
        if act = Action.WRITE ∨ act = Action.READ_RESPONSE ∨ act = Action.COS
        then
          match MAPPING act dom attr with
          | some s => serializeFields s d
          | none => none
        else some []) with _ | fp
    · rw [hfp] at h
      cases h
    · rw [hfp] at h
      dsimp only [] at h
      exact ⟨seq, _, h⟩
  · exact ⟨seq, _, h⟩

/-- Below 256 the parse-side combiner inverts the encoder. -/
lemma decodeCount_encodeIntValue {n : Nat} (h : n < 256) :
    decodeCount (encodeIntValue n).1 (encodeIntValue n).2 = n := by
  unfold decodeCount encodeIntValue
  dsimp only []
  have h1 : n >>> 8 = 0 := by
    rw [Nat.shiftRight_eq_div_pow]
    omega
  have h2 : n &&& 255 = n := by
    have h3 := Nat.and_pow_two_sub_one_eq_mod n 8
    norm_num at h3
    rw [h3]
    omega
  rw [h1, Nat.zero_and, Nat.zero_shiftLeft, Nat.zero_or]
  exact h2

/-- Draining with a live transport writes every packet in order. -/
lemma drainQueue_true (l : List Msg) :
    drainQueue true l = l.map serializePacket := by
  induction l with
  | nil => rfl
  | cons p rest ih => simp [drainQueue, ih]

/-- Draining with no transport writes nothing. -/
lemma drainQueue_false (l : List Msg) : drainQueue false l = [] := by
  induction l with
  | nil => rfl
  | cons p rest ih => simp [drainQueue, ih]

/-- Claim C1 (corrected): for a schema-covered `(action, domain,
attribute)` triple, serializing a message whose schema fields are all
populated with in-range values and then parsing the resulting bytes
reproduces the original field values exactly.  "In-range"
(`inRangeVal`) requires nonzero values for `*Required` fields — the
documented collapse of absent and `0` onto the same wire byte — and
admits NO value for a MAC-address field: the claim's "reproduces the
field values exactly" is false for the `identification/2` schema,
whose `mac_address` field parses back as a colon-separated hex string
instead of the raw byte list serialization consumes (see
`c1_counterexample`). -/
theorem c1_serialize_parse_roundtrip (act : Action)
    (hact : act = .WRITE ∨ act = .READ_RESPONSE ∨ act = .COS)
    (dom : FunctionalDomain) (attr : Nat) (s : List SchemaEntry) (d : Fields)
    (rev seq cnt : Nat)
    (hmap : MAPPING act dom attr = some s)
    (hpop : Populated s d)
    (hnd : (schemaNames s).Nodup)
    (hw : schemaWidth s + 3 < 256)
    (hattr : attr < 256) (hseq : seq < 256) :
    ∃ bs, serializePacket (.pkt act dom attr rev seq cnt d none) = some bs ∧
      parse bs = .ok [.pkt act dom attr 1 seq (schemaWidth s + 3) d none] :=
  serialize_parse_roundtrip act hact dom attr s d rev seq cnt hmap hpop hnd hw
    hattr hseq

/-- Witness for C1's amended theorem: a change-of-state message for
`status/2` with `synced = 1` serializes and parses back to the same
field dict. -/
theorem c1_serialize_parse_roundtrip_witness :
    ∃ bs,
      serializePacket (.pkt Action.COS FunctionalDomain.STATUS 2 0 3 0
          [("synced", PyValue.int 1)] none) = some bs ∧
      parse bs = .ok [.pkt Action.COS FunctionalDomain.STATUS 2 1 3
          (schemaWidth [fieldEntry "synced" VType.integer] + 3)
          [("synced", PyValue.int 1)] none] :=
  c1_serialize_parse_roundtrip Action.COS (by decide) FunctionalDomain.STATUS 2
    [fieldEntry "synced" VType.integer] [("synced", PyValue.int 1)] 0 3 0
    rfl (Populated.field rfl (by show (1 : Nat) < 256; decide) Populated.nil)
    (by decide) (by decide) (by decide) (by decide)

/-- Counterexample for claim C1 as stated: serializing the
`identification/2` message whose `mac_address` field holds the raw
byte list `[1, 2, 3, 4, 5, 6]` and parsing the result yields the
STRING `"1:2:3:4:5:6"` for that field, not the original byte list —
the round trip does not reproduce the field value, and re-serializing
the parsed message fails outright. -/
theorem c1_counterexample :
    serializePacket (.pkt .READ_RESPONSE .IDENTIFICATION 2 1 0 0
        [("mac_address", PyValue.mac [1, 2, 3, 4, 5, 6])] none)
      = some [1, 0, 0, 9, 3, 8, 2, 1, 2, 3, 4, 5, 6, 215]
  ∧ parse [1, 0, 0, 9, 3, 8, 2, 1, 2, 3, 4, 5, 6, 215]
      = .ok [.pkt .READ_RESPONSE .IDENTIFICATION 2 1 0 9
          [("mac_address",
            PyValue.str ['1', ':', '2', ':', '3', ':', '4', ':', '5', ':', '6'])]
          none]
  ∧ PyValue.str ['1', ':', '2', ':', '3', ':', '4', ':', '5', ':', '6']
      ≠ PyValue.mac [1, 2, 3, 4, 5, 6]
  ∧ serializePacket (.pkt .READ_RESPONSE .IDENTIFICATION 2 1 0 9
        [("mac_address",
          PyValue.str ['1', ':', '2', ':', '3', ':', '4', ':', '5', ':', '6'])]
        none)
      = none := by
  refine ⟨by decide, by decide, by decide, by decide⟩

/-- Claim C5 (confirmed): the six concrete codec values of the spec,
and the general bit semantics — decode reads bits 0-5 as the
magnitude, bit 6 as a half-degree fraction and bit 7 as the negative
sign; encode writes `floor(abs(v))` plus 64 when the fractional part
`v - floor(v)` is at least one half, plus 128 when `v` is negative. -/
theorem c5_temperature_codec :
    decodeTemperature 0x15 = 21
  ∧ decodeTemperature 0x95 = -21
  ∧ decodeTemperature 0x5A = 26.5
  ∧ decodeTemperature 0xDA = -26.5
  ∧ encodeTemperature 21 = 0x15
  ∧ encodeTemperature (-26.5) = 0xDA
  ∧ (∀ b : Nat, decodeTemperature b
      = (if b.testBit 7 then (-1 : ℚ) else 1)
          * (((b &&& 63 : Nat) : ℚ) + (if b.testBit 6 then (1 : ℚ)/2 else 0)))
  ∧ (∀ q : ℚ, encodeTemperature q
      = (Int.floor |q|).toNat + (if 1/2 ≤ Int.fract q then 64 else 0)
          + (if q < 0 then 128 else 0)) := by
  have hfl : ⌊|(53/2 : ℚ)|⌋ = 26 := by
    rw [abs_of_nonneg (by norm_num), Int.floor_eq_iff]
    norm_num
  refine ⟨?_, ?_, ?_, ?_, ?_, ?_, decodeTemperature_eq, fun q => ?_⟩
  · norm_num [decodeTemperature, show (21 &&& 63 : Nat) = 21 from by decide,
      show (21 >>> 6 : Nat) = 0 from by decide]
  · norm_num [decodeTemperature, show (149 &&& 63 : Nat) = 21 from by decide,
      show (149 >>> 6 : Nat) = 2 from by decide,
      show (2 >>> 1 : Nat) = 1 from by decide]
  · norm_num [decodeTemperature, show (90 &&& 63 : Nat) = 26 from by decide,
      show (90 >>> 6 : Nat) = 1 from by decide,
      show (1 >>> 1 : Nat) = 0 from by decide]
  · norm_num [decodeTemperature, show (218 &&& 63 : Nat) = 26 from by decide,
      show (218 >>> 6 : Nat) = 3 from by decide,
      show (3 >>> 1 : Nat) = 1 from by decide]
  · norm_num [encodeTemperature]
    decide
  · norm_num [encodeTemperature, hfl]
    decide
  · rw [Int.fract]
    rfl

/-- Claim C6 (corrected): whenever serialization succeeds with a frame
shorter than 261 bytes — payload byte count below 256 — the frame's
two length bytes are the encoder's two-byte encoding of the payload
count and the parse-side combiner `(high << 2) | low` recovers that
count exactly.  The claim's "for every payload byte count serialize
can produce" is false: `raw_data` lets serialize produce payloads of
256 bytes and more, where the combiner (a 2-bit shift against the
encoder's 8-bit shift) no longer inverts the encoding (see
`c6_counterexample`). -/
theorem c6_length_roundtrip (m : Msg) (bs : List Nat)
    (h : serializePacket m = some bs) (hlen : bs.length < 261) :
    ∃ n, n + 5 = bs.length
      ∧ bs.get? 2 = some (encodeIntValue n).1
      ∧ bs.get? 3 = some (encodeIntValue n).2
      ∧ decodeCount (encodeIntValue n).1 (encodeIntValue n).2 = n := by
  obtain ⟨seq, p, hf⟩ := serializePacket_shape m bs h
  have hshape := finishFrame_shape seq p bs hf
  have hlen5 : bs.length = p.length + 5 := by
    rw [hshape]; simp
  have hn : p.length < 256 := by omega
  refine ⟨p.length, by omega, ?_, ?_, ?_⟩
  · rw [hshape]; rfl
  · rw [hshape]; rfl
  · exact decodeCount_encodeIntValue hn

/-- Witness for C6's amended theorem: the 7-byte serialization of a
NACK packet carries length bytes `(0, 2)` and the combiner recovers
the payload count 2. -/
theorem c6_length_roundtrip_witness :
    ∃ n, n + 5 = ([1, 0, 0, 2, 6, 1, 176] : List Nat).length
      ∧ ([1, 0, 0, 2, 6, 1, 176] : List Nat).get? 2 = some (encodeIntValue n).1
      ∧ ([1, 0, 0, 2, 6, 1, 176] : List Nat).get? 3 = some (encodeIntValue n).2
      ∧ decodeCount (encodeIntValue n).1 (encodeIntValue n).2 = n :=
  c6_length_roundtrip (Msg.nack 1 1 0 0) [1, 0, 0, 2, 6, 1, 176] (by decide)
    (by decide)

/-- Counterexample for claim C6 as stated: a WRITE packet whose
`raw_data` is 253 zero bytes serializes successfully with a payload
count of 256; its length bytes are `(1, 0)` but the parse-side
combiner recovers `(1 << 2) | 0 = 4`, not 256. -/
theorem c6_counterexample :
    ∃ bs, serializePacket
        (Msg.pkt .WRITE .CONTROL 1 1 0 0 [] (some (List.replicate 253 0)))
        = some bs
      ∧ bs.length = 261
      ∧ bs.get? 2 = some 1 ∧ bs.get? 3 = some 0
      ∧ decodeCount 1 0 = 4 ∧ ¬ decodeCount 1 0 = bs.length - 5 := by
  have hbytes : ∀ b ∈ [Action.WRITE.toNat, FunctionalDomain.CONTROL.toNat, 1]
      ++ List.replicate 253 0, b < 256 := by
    intro b hb
    simp at hb
    rcases hb with rfl | rfl | rfl | ⟨h1, h2⟩
    · decide
    · decide
    · decide
    · omega
  have h : serializePacket
      (Msg.pkt .WRITE .CONTROL 1 1 0 0 [] (some (List.replicate 253 0)))
      = finishFrame 0 ([Action.WRITE.toNat, FunctionalDomain.CONTROL.toNat, 1]
          ++ List.replicate 253 0) := rfl
  rw [finishFrame_bytes 0 _ (by decide) hbytes] at h
  have hplen : ([Action.WRITE.toNat, FunctionalDomain.CONTROL.toNat, 1]
      ++ List.replicate 253 0).length = 256 := by simp
  have henc : encodeIntValue 256 = (1, 0) := by decide
  rw [hplen, henc] at h
  dsimp only [] at h
  refine ⟨_, h, ?_, rfl, rfl, by decide, ?_⟩
  · simp
  · simp
    decide

/-- Claim C7 (confirmed): a change-of-state packet for the Control
domain, attribute 1, whose `mode` field compares equal to 1 makes the
session schedule exactly one automatic re-read of Control attribute 1
instead of forwarding the packet; every other decoded non-NACK packet
is forwarded to the subscriber callback with its domain, attribute and
field dict; and a decoded packet list produces exactly these effects
one per packet, in arrival order. -/
theorem c7_cos_mode_quirk :
    (∀ rev seq cnt d raw, pyEqOne (List.lookup "mode" d) = true →
        handlePacket (Msg.pkt .COS .CONTROL 1 rev seq cnt d raw)
          = SessionEffect.reread .CONTROL 1)
  ∧ (∀ act dom attr rev seq cnt d raw,
        ¬ (act = Action.COS ∧ dom = FunctionalDomain.CONTROL ∧ attr = 1
            ∧ pyEqOne (List.lookup "mode" d) = true) →
        handlePacket (Msg.pkt act dom attr rev seq cnt d raw)
          = SessionEffect.forward dom attr d)
  ∧ (∀ ms, sessionEffects ms = ms.map handlePacket) := by
  refine ⟨?_, ?_, fun _ => rfl⟩
  · intro rev seq cnt d raw hmode
    simp [handlePacket, hmode]
  · intro act dom attr rev seq cnt d raw hne
    rw [handlePacket, if_neg]
    intro ⟨h1, h2, h3, h4⟩
    exact hne ⟨h1, h2, h3, h4⟩

/-- Witness for C7: a COS Control/1 packet with `mode = 1` triggers
the re-read, while a READ_RESPONSE status packet is forwarded. -/
theorem c7_cos_mode_quirk_witness :
    handlePacket (Msg.pkt .COS .CONTROL 1 1 0 0 [("mode", PyValue.int 1)] none)
      = SessionEffect.reread .CONTROL 1
  ∧ handlePacket (Msg.pkt .READ_RESPONSE .STATUS 2 1 0 0
        [("synced", PyValue.int 1)] none)
      = SessionEffect.forward .STATUS 2 [("synced", PyValue.int 1)]
  ∧ sessionEffects [Msg.nack 4 1 0 0] = [SessionEffect.logNack 4] :=
  ⟨c7_cos_mode_quirk.1 1 0 0 [("mode", PyValue.int 1)] none rfl,
   c7_cos_mode_quirk.2.1 .READ_RESPONSE .STATUS 2 1 0 0
     [("synced", PyValue.int 1)] none (by intro ⟨h, _⟩; cases h),
   (c7_cos_mode_quirk.2.2 [Msg.nack 4 1 0 0]).trans rfl⟩

/-- Claim C8 (confirmed): an inbound message for a nonzero key
`(domain, attribute)` resolves EVERY waiter registered under that key
with the same fields payload — an already resolved or cancelled waiter
is left untouched, a benign no-op — and clears the key's waiter list
while leaving every other key alone; registration appends a fresh
pending waiter; a pending (timed-out) waiter yields the `None`
sentinel while a resolved one yields its payload. -/
theorem c8_waiter_resolution (futures : FuturesMap) (dom : FunctionalDomain)
    (attr : Nat) (d d' : Fields) (k : FutureKey)
    (hdom : ¬ dom = FunctionalDomain.NONE) (hattr : ¬ attr = 0)
    (hk : ¬ k = (dom, attr)) :
    (clientDataReceived futures dom attr d).resolvedList
        = (futures (dom, attr)).map (fun f => trySetResult f d)
  ∧ (clientDataReceived futures dom attr d).newFutures (dom, attr) = []
  ∧ (clientDataReceived futures dom attr d).newFutures k = futures k
  ∧ trySetResult .pending d = .resolved d
  ∧ trySetResult (.resolved d') d = .resolved d'
  ∧ trySetResult .cancelled d = .cancelled
  ∧ registerWaiter futures (dom, attr) (dom, attr)
      = futures (dom, attr) ++ [FutureState.pending]
  ∧ waitOutcome .pending = none
  ∧ waitOutcome (.resolved d) = some d := by
  have hguard : ¬ (dom = FunctionalDomain.NONE ∨ attr = 0) := by
    intro h; rcases h with h | h
    · exact hdom h
    · exact hattr h
  refine ⟨?_, ?_, ?_, rfl, rfl, rfl, ?_, rfl, rfl⟩
  · rw [clientDataReceived, if_neg hguard]
  · rw [clientDataReceived, if_neg hguard]
    simp
  · rw [clientDataReceived, if_neg hguard]
    simp [hk]
  · rw [registerWaiter, if_pos rfl]

/-- Witness for C8: with two waiters (one pending, one cancelled)
registered under Control/1, an inbound Control/1 message resolves the
pending one with the payload, leaves the cancelled one untouched,
clears the Control/1 list and leaves Status/2 alone. -/
theorem c8_waiter_resolution_witness :
    (clientDataReceived demoFutures .CONTROL 1
        [("mode", PyValue.int 2)]).resolvedList
      = [FutureState.resolved [("mode", PyValue.int 2)], FutureState.cancelled]
  ∧ (clientDataReceived demoFutures .CONTROL 1
        [("mode", PyValue.int 2)]).newFutures (.CONTROL, 1) = []
  ∧ (clientDataReceived demoFutures .CONTROL 1
        [("mode", PyValue.int 2)]).newFutures (.STATUS, 2)
      = demoFutures (.STATUS, 2)
  ∧ registerWaiter demoFutures (.CONTROL, 1) (.CONTROL, 1)
      = demoFutures (.CONTROL, 1) ++ [FutureState.pending]
  ∧ waitOutcome .pending = none
  ∧ waitOutcome (.resolved [("mode", PyValue.int 2)])
      = some [("mode", PyValue.int 2)] := by
  have h := c8_waiter_resolution demoFutures .CONTROL 1
    [("mode", PyValue.int 2)] [] (.STATUS, 2) (by decide) (by decide) (by decide)
  exact ⟨by rw [h.1]; rfl, h.2.1, h.2.2.1, h.2.2.2.2.2.2.1,
    h.2.2.2.2.2.2.2.1, h.2.2.2.2.2.2.2.2⟩

/-- Claim C9 (confirmed): one wake of the queue flush loop always
leaves the queue empty; when a live transport exists at that instant
the writes are exactly the serializations of the drained packets in
FIFO order, and when none exists nothing is written and the drained
packets are not re-queued. -/
theorem c9_queue_drain (s : ProtocolState) :
    (queueLoopWake s).2 = ⟨s.transport, []⟩
  ∧ (s.transport = true → (queueLoopWake s).1 = s.queue.map serializePacket)
  ∧ (s.transport = false → (queueLoopWake s).1 = []) := by
  refine ⟨rfl, fun ht => ?_, fun ht => ?_⟩
  · show drainQueue s.transport s.queue = _
    rw [ht]
    exact drainQueue_true s.queue
  · show drainQueue s.transport s.queue = _
    rw [ht]
    exact drainQueue_false s.queue

/-- Witness for C9: with a live transport the two queued packets are
written in FIFO order and the queue is emptied; without one the same
queue is dropped. -/
theorem c9_queue_drain_witness :
    (queueLoopWake ⟨true, [Msg.nack 1 1 0 0, Msg.nack 2 1 0 0]⟩).1
      = [serializePacket (Msg.nack 1 1 0 0), serializePacket (Msg.nack 2 1 0 0)]
  ∧ (queueLoopWake ⟨true, [Msg.nack 1 1 0 0, Msg.nack 2 1 0 0]⟩).2 = ⟨true, []⟩
  ∧ (queueLoopWake ⟨false, [Msg.nack 1 1 0 0, Msg.nack 2 1 0 0]⟩).1 = [] :=
  ⟨(c9_queue_drain ⟨true, [Msg.nack 1 1 0 0, Msg.nack 2 1 0 0]⟩).2.1 rfl,
   (c9_queue_drain ⟨true, [Msg.nack 1 1 0 0, Msg.nack 2 1 0 0]⟩).1,
   (c9_queue_drain ⟨false, [Msg.nack 1 1 0 0, Msg.nack 2 1 0 0]⟩).2.2 rfl⟩

/-- Claim C10 (confirmed): when the inbound key has the none-domain or
attribute 0 — as in the synthetic connection-lost notification
`(NONE, 0, \x7bavailable: false\x7d)` — `data_received` still hands the
payload to the subscriber callback but returns before any future
resolution: the waiter table is untouched, no key is popped, nothing is
resolved, so a waiter under such a key stays pending and its
`wait_for_response` can only return the timeout `None` sentinel. -/
theorem c10_zero_key_guard (futures : FuturesMap) (dom : FunctionalDomain)
    (attr : Nat) (d : Fields) (k : FutureKey)
    (h : dom = FunctionalDomain.NONE ∨ attr = 0) :
    (clientDataReceived futures dom attr d).callbackData = d
  ∧ (clientDataReceived futures dom attr d).newFutures k = futures k
  ∧ (clientDataReceived futures dom attr d).resolvedKey = none
  ∧ (clientDataReceived futures dom attr d).resolvedList = []
  ∧ waitOutcome .pending = none := by
  rw [clientDataReceived, if_pos h]
  exact ⟨rfl, rfl, rfl, rfl, rfl⟩

/-- Witness for C10: the connection-lost notification
`(NONE, 0, \x7bavailable: 0\x7d)` reaches the callback but resolves
nothing, even with a pending waiter registered under `(NONE, 0)`. -/
theorem c10_zero_key_guard_witness :
    (clientDataReceived demoFutures .NONE 0
        [("available", PyValue.int 0)]).callbackData
      = [("available", PyValue.int 0)]
  ∧ (clientDataReceived demoFutures .NONE 0
        [("available", PyValue.int 0)]).newFutures (.NONE, 0)
      = demoFutures (.NONE, 0)
  ∧ (clientDataReceived demoFutures .NONE 0
        [("available", PyValue.int 0)]).resolvedKey = none
  ∧ (clientDataReceived demoFutures .NONE 0
        [("available", PyValue.int 0)]).resolvedList = []
  ∧ waitOutcome .pending = none :=
  c10_zero_key_guard demoFutures .NONE 0 [("available", PyValue.int 0)]
    (.NONE, 0) (Or.inl rfl)

end Aprilaire
